import Mathlib

/-!
# Proof-of-Authority + Proof-of-Liquidity engine: incentive ledger, reward step, selection

A shallow embedding of `consensus/pol/pol_state.go` and `consensus/pol/consensus.go`; the
header verification of `consensus/hybrid/hybrid.go` follows in the namespace `Hybrid`, the
distribution transaction of `core/types/tx_pol.go` in the namespace `Types`.

* `*big.Int` values are `Int`.
* `common.Address` (`[20]byte`) and `common.Hash` (`[32]byte`) are byte lists of the
  exact length; a byte is a `Fin 256`.
* `vm.StateDB` is an explicit value that is passed in and returned.
* Go's `(value, error)` results are pairs whose error component is an `Option`.
* `crypto.Keccak256Hash` is a parameter `keccak` of every function that hashes.
-/

namespace Poapol

/-! ## Bytes, addresses, hashes -/

abbrev Byte := Fin 256

/-- `common.Address`: an array of 20 bytes. -/
abbrev Address := { l : List Byte // l.length = 20 }

/-- `common.Hash`: an array of 32 bytes. -/
abbrev Hash := { l : List Byte // l.length = 32 }

/-- The zero value `common.Hash{}`. -/
def zeroHash : Hash := ⟨List.replicate 32 0, by simp⟩

/-- The zero value `common.Address{}`. -/
def zeroAddress : Address := ⟨List.replicate 20 0, by simp⟩

/-- The placeholder contract address
`common.HexToAddress("0x0000000000000000000000000000000000000001")`. -/
def contractAddr : Address := ⟨List.replicate 19 0 ++ [1], by simp⟩

/-! ## `math/big` primitives -/

/-- Base-256 digits of a natural number, least significant first, without leading
zeros.  The first argument bounds the number of digits. -/
def natBytesLE : Nat → Nat → List Byte
  | 0, _ => []
  | fuel + 1, n =>
    if n = 0 then [] else ⟨n % 256, Nat.mod_lt _ (by decide)⟩ :: natBytesLE fuel (n / 256)

/-- `(*big.Int).Bytes`: the absolute value of `x` as a big-endian byte slice. -/
def bigBytes (x : Int) : List Byte := (natBytesLE x.natAbs x.natAbs).reverse

/-- `(*big.Int).SetBytes`: interprets a big-endian byte slice as an unsigned integer. -/
def bigSetBytes (buf : List Byte) : Int :=
  Int.ofNat (buf.foldl (fun acc b => acc * 256 + b.val) 0)

/-- Go's builtin `copy(dst, src)`: overwrites the first `min (len dst) (len src)` elements of
`dst` with those of `src`; returns the new contents of `dst`. -/
def copyBytes (dst src : List Byte) : List Byte :=
  src.take dst.length ++ dst.drop src.length

/-- `var h common.Hash; copy(h[:], x.Bytes())` as written in `SetValidatorInfo`. -/
def hashFromBig (x : Int) : Hash :=
  ⟨copyBytes zeroHash.val (bigBytes x), by
    simp only [copyBytes, zeroHash, List.length_append, List.length_take, List.length_drop,
      List.length_replicate]
    omega⟩

/-! ## State collaborator -/

/-- Modelled from the spec: the state collaborator `vm.StateDB`, of which the engine uses
`GetState(namespace, slot)`, `SetState(namespace, slot, value)` and
`AddBalance(identity, amount, reasonTag)`.  Storage is a total map from (account, slot) to a
32-byte word; balances are 256-bit unsigned integers. -/
structure StateDB where
  storage : Address → Hash → Hash
  balance : Address → Nat

/-- Modelled from the spec: `GetState(namespace, slot) -> 32-byte value`. -/
def StateDB.GetState (s : StateDB) (addr : Address) (key : Hash) : Hash :=
  s.storage addr key

/-- Modelled from the spec: `SetState(namespace, slot, value)`. -/
def StateDB.SetState (s : StateDB) (addr : Address) (key value : Hash) : StateDB :=
  { s with storage := fun a k => if a = addr ∧ k = key then value else s.storage a k }

/-- Modelled from the spec: `AddBalance(identity, amount, reasonTag)`; the sum is a 256-bit
unsigned integer. -/
def StateDB.AddBalance (s : StateDB) (addr : Address) (amount : Nat) : StateDB :=
  { s with balance := fun a => if a = addr then (s.balance a + amount) % 2 ^ 256 else s.balance a }

/-! ## `pol_state.go` -/

inductive Error where
  | errInsufficientDelegation
  | noValidatorsAvailable
  | engine (code : Nat)
  deriving DecidableEq, Repr

/-- `ValidatorInfo`. -/
structure ValidatorInfo where
  Address : Address
  BGTDelegated : Int
  LiquidityStake : Int
  TotalRewards : Int
  deriving DecidableEq

/-- The byte string hashed by `getValidatorSlot`: `append(validator.Bytes(), byte(index))`. -/
def slotKey (validator : Address) (index : Nat) : List Byte :=
  validator.val ++ [⟨index % 256, Nat.mod_lt _ (by decide)⟩]

/-- `getValidatorSlot`: `keccak256(validator_address || index)`. -/
def getValidatorSlot (keccak : List Byte → Hash) (validator : Address) (index : Nat) : Hash :=
  keccak (slotKey validator index)

/-- `GetValidatorInfo`. -/
def GetValidatorInfo (keccak : List Byte → Hash) (state : StateDB) (validator : Address) :
    ValidatorInfo × Option Error :=
  let bgtSlot := getValidatorSlot keccak validator 0
  let liquiditySlot := getValidatorSlot keccak validator 1
  let rewardsSlot := getValidatorSlot keccak validator 2
  let bgtHash := state.GetState contractAddr bgtSlot
  let liquidityHash := state.GetState contractAddr liquiditySlot
  let rewardsHash := state.GetState contractAddr rewardsSlot
  ({ Address := validator
     BGTDelegated := if bgtHash ≠ zeroHash then bigSetBytes bgtHash.val else 0
     LiquidityStake := if liquidityHash ≠ zeroHash then bigSetBytes liquidityHash.val else 0
     TotalRewards := if rewardsHash ≠ zeroHash then bigSetBytes rewardsHash.val else 0 },
   none)

/-- `SetValidatorInfo`. -/
def SetValidatorInfo (keccak : List Byte → Hash) (state : StateDB) (info : ValidatorInfo) :
    StateDB × Option Error :=
  let bgtSlot := getValidatorSlot keccak info.Address 0
  let liquiditySlot := getValidatorSlot keccak info.Address 1
  let rewardsSlot := getValidatorSlot keccak info.Address 2
  let bgtHash := hashFromBig info.BGTDelegated
  let liquidityHash := hashFromBig info.LiquidityStake
  let rewardsHash := hashFromBig info.TotalRewards
  let state := state.SetState contractAddr bgtSlot bgtHash
  let state := state.SetState contractAddr liquiditySlot liquidityHash
  let state := state.SetState contractAddr rewardsSlot rewardsHash
  (state, none)

/-- `AddBGTDelegation`. -/
def AddBGTDelegation (keccak : List Byte → Hash) (state : StateDB) (validator : Address)
    (amount : Int) : StateDB × Option Error :=
  match GetValidatorInfo keccak state validator with
  | (_, some err) => (state, some err)
  | (info, none) =>
    let info := { info with BGTDelegated := info.BGTDelegated + amount }
    SetValidatorInfo keccak state info

/-- `RemoveBGTDelegation`. -/
def RemoveBGTDelegation (keccak : List Byte → Hash) (state : StateDB) (validator : Address)
    (amount : Int) : StateDB × Option Error :=
  match GetValidatorInfo keccak state validator with
  | (_, some err) => (state, some err)
  | (info, none) =>
    if info.BGTDelegated < amount then
      (state, some Error.errInsufficientDelegation)
    else
      let info := { info with BGTDelegated := info.BGTDelegated - amount }
      SetValidatorInfo keccak state info

/-- A Go `map[common.Address]*big.Int`, kept as the list of its entries; the keys are
pairwise distinct. -/
abbrev DelegationMap := List (Address × Int)

/-- The Go map assignment `m[k] = v`: overwrites the entry of `k`, or adds one. -/
def DelegationMap.set (m : DelegationMap) (k : Address) (v : Int) : DelegationMap :=
  if m.any (fun e => e.1 = k) then m.map (fun e => if e.1 = k then (k, v) else e)
  else m ++ [(k, v)]

/-- The Go map read `m[k]`, used by `SelectValidator` only on a key that was assigned. -/
def DelegationMap.get (m : DelegationMap) (k : Address) : Int :=
  match m.find? (fun e => e.1 = k) with
  | some e => e.2
  | none => 0

/-- `SelectValidator`.  Go leaves the order in which `range` visits the entries of a map
unspecified: `rangeOrder` maps the entries to the sequence in which the last loop visits them,
in Go some permutation of the entries. -/
def SelectValidator (keccak : List Byte → Hash) (rangeOrder : DelegationMap → DelegationMap)
    (state : StateDB) (validators : List Address) : Address × Option Error :=
  match validators with
  | [] => (zeroAddress, some Error.noValidatorsAvailable)
  | first :: _ =>
    let (totalDelegation, delegations) :=
      validators.foldl
        (fun (acc : Int × DelegationMap) validator =>
          match GetValidatorInfo keccak state validator with
          | (_, some _) => (acc.1, acc.2.set validator 0)
          | (info, none) => (acc.1 + info.BGTDelegated, acc.2.set validator info.BGTDelegated))
        (0, [])
    if totalDelegation = 0 then
      (first, none)
    else
      let selectedValidator := first
      let maxDelegation := delegations.get selectedValidator
      let (selectedValidator, _) :=
        (rangeOrder delegations).foldl
          (fun (acc : Address × Int) entry =>
            if entry.2 > acc.2 then (entry.1, entry.2) else acc)
          (selectedValidator, maxDelegation)
      (selectedValidator, none)

/-- `GetTotalBGTDelegation`. -/
def GetTotalBGTDelegation (keccak : List Byte → Hash) (state : StateDB)
    (validators : List Address) : Int :=
  validators.foldl
    (fun (total : Int) validator =>
      match GetValidatorInfo keccak state validator with
      | (_, some _) => total
      | (info, none) => total + info.BGTDelegated)
    0

/-! ## `consensus.go` -/

/-- `POAPOLConfig`, without the embedded Clique configuration. -/
structure POAPOLConfig where
  BGTContractAddress : Address
  RewardVaultAddress : Address
  MinLiquidityStake : Int
  DelegationWeight : Int
  BlockReward : Int

/-- `uint256.FromBig`: the low 256 bits of `b` in two's complement, and whether `b` does not
fit in 256 bits. -/
def uint256FromBig (b : Int) : Nat × Bool :=
  let z := b.natAbs % 2 ^ 256
  ((if b < 0 then (2 ^ 256 - z) % 2 ^ 256 else z), decide (2 ^ 256 ≤ b.natAbs))

/-- `(*uint256.Int).Sub`: subtraction modulo `2^256`. -/
def uint256Sub (x y : Nat) : Nat := (x % 2 ^ 256 + (2 ^ 256 - y % 2 ^ 256)) % 2 ^ 256

/-- `calculatePOLReward`: returns the reward and the state after the update of the record. -/
def calculatePOLReward (keccak : List Byte → Hash) (config : POAPOLConfig)
    (validator : Address) (state : StateDB) : Int × StateDB :=
  match GetValidatorInfo keccak state validator with
  | (_, some _) => (config.BlockReward, state)
  | (info, none) =>
    let reward := config.BlockReward
    let reward :=
      if info.BGTDelegated > 0 then
        reward + (config.DelegationWeight * info.BGTDelegated) / 1000
      else reward
    let info := { info with TotalRewards := info.TotalRewards + reward }
    let state := (SetValidatorInfo keccak state info).1
    (reward, state)

/-- `finalizePOL`.  `cliqueAuthor` is the authority engine's `Author`. -/
def finalizePOL {Header : Type} (keccak : List Byte → Hash) (config : POAPOLConfig)
    (cliqueAuthor : Header → Address × Option Error) (header : Header) (state : StateDB) :
    StateDB :=
  match cliqueAuthor header with
  | (_, some _) => state
  | (validator, none) =>
    let (reward, state) := calculatePOLReward keccak config validator state
    if reward > 0 then
      let (rewardUint256, overflow) := uint256FromBig reward
      let rewardUint256 := if overflow then uint256Sub 0 1 else rewardUint256
      state.AddBalance validator rewardUint256
    else state

/-! ## Vocabulary of the statements, and instances used in examples -/

/-- The natural number denoted by a big-endian byte string. -/
def beNat (buf : List Byte) : Nat := buf.foldl (fun acc b => acc * 256 + b.val) 0

/-- The three storage slots of a validator are pairwise different words. -/
def SlotsDistinct (keccak : List Byte → Hash) (validator : Address) : Prop :=
  getValidatorSlot keccak validator 0 ≠ getValidatorSlot keccak validator 1 ∧
  getValidatorSlot keccak validator 0 ≠ getValidatorSlot keccak validator 2 ∧
  getValidatorSlot keccak validator 1 ≠ getValidatorSlot keccak validator 2

instance (keccak : List Byte → Hash) (validator : Address) :
    Decidable (SlotsDistinct keccak validator) :=
  inferInstanceAs (Decidable (_ ∧ _ ∧ _))

/-- No record is stored for the validator: its three slots hold the zero word. -/
def NoRecord (keccak : List Byte → Hash) (state : StateDB) (validator : Address) : Prop :=
  state.GetState contractAddr (getValidatorSlot keccak validator 0) = zeroHash ∧
  state.GetState contractAddr (getValidatorSlot keccak validator 1) = zeroHash ∧
  state.GetState contractAddr (getValidatorSlot keccak validator 2) = zeroHash

instance (keccak : List Byte → Hash) (state : StateDB) (validator : Address) :
    Decidable (NoRecord keccak state validator) :=
  inferInstanceAs (Decidable (_ ∧ _ ∧ _))

/-- The delegated stake of a validator as `GetValidatorInfo` reads it. -/
def delegatedStake (keccak : List Byte → Hash) (state : StateDB) (validator : Address) : Int :=
  (GetValidatorInfo keccak state validator).1.BGTDelegated

/-- The running total and the map of the first loop of `SelectValidator` after the candidates
`l`, started from `acc`. -/
def sumLoop (keccak : List Byte → Hash) (state : StateDB) (l : List Address)
    (acc : Int × DelegationMap) : Int × DelegationMap :=
  l.foldl
    (fun (acc : Int × DelegationMap) validator =>
      (acc.1 + delegatedStake keccak state validator,
        acc.2.set validator (delegatedStake keccak state validator)))
    acc

/-- The selected validator and the maximum of the last loop of `SelectValidator` after the
entries `l`, started from `acc`. -/
def maxLoop (l : DelegationMap) (acc : Address × Int) : Address × Int :=
  l.foldl (fun (acc : Address × Int) entry => if entry.2 > acc.2 then (entry.1, entry.2) else acc)
    acc

/-- A byte string without leading zero byte: it is empty or its first byte is not zero. -/
def NoLeadingZero (l : List Byte) : Prop := ∀ b, l.head? = some b → b ≠ 0

/-- The word whose 32 bytes are all `0xff`. -/
def maxHash : Hash := ⟨List.replicate 32 255, by simp⟩

/-- A stand-in for the hash function in examples: the input padded with zero bytes, or cut, to
32 bytes.  It is injective on inputs of at most 32 bytes, hence on the 21-byte slot keys. -/
def padHash (input : List Byte) : Hash :=
  ⟨(input ++ List.replicate 32 0).take 32, by simp⟩

/-- The 32-byte big-endian word of value `n` (as `common.BigToHash` lays it out). -/
def wordHash (n : Nat) : Hash :=
  ⟨(List.replicate 32 0 ++ bigBytes n).drop (bigBytes n).length |>.take 32, by
    simp only [List.length_take, List.length_drop, List.length_append, List.length_replicate]
    omega⟩

/-- The address whose last byte is `b` and whose other bytes are zero. -/
def addrOf (b : Byte) : Address := ⟨List.replicate 19 0 ++ [b], by simp⟩

/-- The state in which every storage word is `w` and every balance is zero. -/
def constState (w : Hash) : StateDB := { storage := fun _ _ => w, balance := fun _ => 0 }

/-- The state in which every storage word and every balance is zero. -/
def emptyState : StateDB := constState zeroHash

/-- A configuration with block reward 1 and delegation weight 1. -/
def unitConfig : POAPOLConfig :=
  { BGTContractAddress := zeroAddress, RewardVaultAddress := zeroAddress,
    MinLiquidityStake := 0, DelegationWeight := 1, BlockReward := 1 }

/-- The empty state in which the delegated-stake slot of `validator` holds the word of
value 5. -/
def stakeFiveState (keccak : List Byte → Hash) (validator : Address) : StateDB :=
  emptyState.SetState contractAddr (getValidatorSlot keccak validator 0) (wordHash 5)

/-- A configuration with the given block reward and delegation weight 0. -/
def flatConfig (blockReward : Int) : POAPOLConfig :=
  { BGTContractAddress := zeroAddress, RewardVaultAddress := zeroAddress,
    MinLiquidityStake := 0, DelegationWeight := 0, BlockReward := blockReward }

/-- An authority engine whose `Author` names the address ending in `0x01` for every header. -/
def authorOne : Unit → Address × Option Error := fun _ => (addrOf 1, none)

/-- The empty state in which the delegated-stake slots of the addresses ending in `0x0a`,
`0x0b`, `0x0c` hold the words of value 5, 9, 9. -/
def stakes599 (keccak : List Byte → Hash) : StateDB :=
  ((emptyState.SetState contractAddr (getValidatorSlot keccak (addrOf 10) 0) (wordHash 5)).SetState
    contractAddr (getValidatorSlot keccak (addrOf 11) 0) (wordHash 9)).SetState
    contractAddr (getValidatorSlot keccak (addrOf 12) 0) (wordHash 9)

end Poapol

/-! # Hybrid engine: header verification

A shallow embedding of `VerifyHeader` in `consensus/hybrid/hybrid.go`.  The authority engine,
the chain reader, the chain configuration and the fee-market and blob-fee checks are
collaborators; they are the fields of `Env`.  A `nil` pointer field of a header is `none`. -/

namespace Hybrid

open Poapol

/-- The fields of `types.Header` that `VerifyHeader` reads.  `Number` is dereferenced without a
`nil` test and is always present here; `uint64` fields are natural numbers. -/
structure Header where
  ParentHash : Hash
  UncleHash : Hash
  Difficulty : Option Int
  Number : Int
  GasLimit : Nat
  GasUsed : Nat
  Time : Nat
  BaseFee : Option Int
  WithdrawalsHash : Option Hash
  BlobGasUsed : Option Nat
  ExcessBlobGas : Option Nat
  ParentBeaconRoot : Option Hash
  deriving DecidableEq

/-- Modelled from the spec: the collaborators of header verification.
`cliqueVerifyHeader` is the authority engine's `VerifyHeader(chain, header)`, `getHeader` is
`chain.GetHeader(hash, number)`, `isLondon`, `isShanghai`, `isCancun` are the activation
predicates of the chain configuration, `verifyEIP1559Header` and `verifyEIP4844Header` are the
fee-market and blob-fee checks `(parent, header) -> error`, `maxGasLimit` is
`params.MaxGasLimit` and `emptyUncleHash` is `types.EmptyUncleHash`. -/
structure Env where
  cliqueVerifyHeader : Header → Option Error
  getHeader : Hash → Nat → Option Header
  isLondon : Int → Bool
  isShanghai : Int → Nat → Bool
  isCancun : Int → Nat → Bool
  verifyEIP1559Header : Header → Header → Option Error
  verifyEIP4844Header : Header → Header → Option Error
  maxGasLimit : Nat
  emptyUncleHash : Hash

/-- The text that `fmt.Errorf("%w: ...", errInvalidHybrid, ...)` adds to `errInvalidHybrid`, one
constructor for each call in `VerifyHeader`. -/
inductive Reason where
  | difficultyNotOneOrTwo (got : Int)
  | uncleHashNotEmpty
  | timestampNotGreater
  | gasLimitExceedsMaximum
  | gasUsedExceedsGasLimit
  | baseFeeRequired
  | withdrawalsHashRequired
  | withdrawalsHashNotAllowed
  | invalidExcessBlobGas (got : Nat)
  | invalidBlobGasUsed (got : Nat)
  | invalidParentBeaconRoot (got : Hash)
  | missingBeaconRoot
  deriving DecidableEq

/-- The error values that `VerifyHeader` returns. -/
inductive VerifyError where
  -- `errInvalidHybrid` itself.
  | errInvalidHybrid
  -- `fmt.Errorf("%w: ...", errInvalidHybrid, ...)`.
  | invalidHybrid (reason : Reason)
  -- `fmt.Errorf("PoA validation failed: %w", err)`.
  | poaValidationFailed (err : Error)
  -- `consensus.ErrUnknownAncestor`.
  | errUnknownAncestor
  -- `consensus.ErrInvalidNumber`.
  | errInvalidNumber
  -- `fmt.Errorf("%w: EIP-1559 validation failed: %w", errInvalidHybrid, err)`.
  | eip1559ValidationFailed (err : Error)
  -- `fmt.Errorf("%w: EIP-4844 validation failed: %w", errInvalidHybrid, err)`.
  | eip4844ValidationFailed (err : Error)
  deriving DecidableEq

/-- The collaborator's error that an error value wraps with `%w`, if it wraps one. -/
def VerifyError.unwrapCollaborator : VerifyError → Option Error
  | .poaValidationFailed err => some err
  | .eip1559ValidationFailed err => some err
  | .eip4844ValidationFailed err => some err
  | _ => none

/-- `errors.Is(err, errInvalidHybrid)`. -/
def VerifyError.isInvalidHybrid : VerifyError → Bool
  | .errInvalidHybrid => true
  | .invalidHybrid _ => true
  | .eip1559ValidationFailed _ => true
  | .eip4844ValidationFailed _ => true
  | _ => false

/-- `header.Number.Uint64() - 1`: the low 64 bits of the absolute value, minus one in `uint64`
arithmetic. -/
def parentNumber (number : Int) : Nat :=
  (number.natAbs % 2 ^ 64 + (2 ^ 64 - 1)) % 2 ^ 64

/-- `VerifyHeader`: `none` is the `nil` error. -/
def VerifyHeader (env : Env) (header : Header) : Option VerifyError :=
  match header.Difficulty with
  | none => some VerifyError.errInvalidHybrid
  | some difficulty =>
    if difficulty ≠ 1 ∧ difficulty ≠ 2 then
      some (VerifyError.invalidHybrid (Reason.difficultyNotOneOrTwo difficulty))
    else
      match env.cliqueVerifyHeader header with
      | some err => some (VerifyError.poaValidationFailed err)
      | none =>
        match env.getHeader header.ParentHash (parentNumber header.Number) with
        | none => some VerifyError.errUnknownAncestor
        | some parent =>
          if header.UncleHash ≠ env.emptyUncleHash then
            some (VerifyError.invalidHybrid Reason.uncleHashNotEmpty)
          else if header.Time ≤ parent.Time then
            some (VerifyError.invalidHybrid Reason.timestampNotGreater)
          else if header.GasLimit > env.maxGasLimit then
            some (VerifyError.invalidHybrid Reason.gasLimitExceedsMaximum)
          else if header.GasUsed > header.GasLimit then
            some (VerifyError.invalidHybrid Reason.gasUsedExceedsGasLimit)
          else if header.Number - parent.Number ≠ 1 then
            some VerifyError.errInvalidNumber
          else
            let london : Option VerifyError :=
              if env.isLondon header.Number = true then
                if header.BaseFee = none then
                  some (VerifyError.invalidHybrid Reason.baseFeeRequired)
                else
                  match env.verifyEIP1559Header parent header with
                  | some err => some (VerifyError.eip1559ValidationFailed err)
                  | none => none
              else none
            match london with
            | some err => some err
            | none =>
              let shanghai := env.isShanghai header.Number header.Time
              if shanghai = true ∧ header.WithdrawalsHash = none then
                some (VerifyError.invalidHybrid Reason.withdrawalsHashRequired)
              else if shanghai = false ∧ header.WithdrawalsHash ≠ none then
                some (VerifyError.invalidHybrid Reason.withdrawalsHashNotAllowed)
              else
                let cancun := env.isCancun header.Number header.Time
                if cancun = false then
                  match header.ExcessBlobGas, header.BlobGasUsed, header.ParentBeaconRoot with
                  | some excess, _, _ =>
                    some (VerifyError.invalidHybrid (Reason.invalidExcessBlobGas excess))
                  | none, some used, _ =>
                    some (VerifyError.invalidHybrid (Reason.invalidBlobGasUsed used))
                  | none, none, some root =>
                    some (VerifyError.invalidHybrid (Reason.invalidParentBeaconRoot root))
                  | none, none, none => none
                else
                  match header.ParentBeaconRoot with
                  | none => some (VerifyError.invalidHybrid Reason.missingBeaconRoot)
                  | some _ =>
                    match env.verifyEIP4844Header parent header with
                    | some err => some (VerifyError.eip4844ValidationFailed err)
                    | none => none

/-- The loop of the goroutine of `VerifyHeaders`, from the header with index `i`.  In each
iteration the `select` either takes `<-abort` and returns, or sends the result of
`VerifyHeader` on `results`, whose buffer holds one result for each header, so that the send is
always possible.  `abortReady i` tells whether the caller has signalled on `abort` when
iteration `i` reaches the `select`; `pickAbort i` is the choice of the `select` when both cases
are possible. -/
def verifyLoop (env : Env) (abortReady pickAbort : Nat → Bool) :
    Nat → List Header → List (Option VerifyError)
  | _, [] => []
  | i, header :: rest =>
    if abortReady i = true ∧ pickAbort i = true then []
    else VerifyHeader env header :: verifyLoop env abortReady pickAbort (i + 1) rest

/-- `VerifyHeaders`: the sequence of results that the goroutine sends on `results`. -/
def VerifyHeaders (env : Env) (abortReady pickAbort : Nat → Bool) (headers : List Header) :
    List (Option VerifyError) :=
  verifyLoop env abortReady pickAbort 0 headers

/-- The rules of header verification in the order in which the specification lists them
(difficulty, authority engine, parent lookup, uncle hash, timestamp, gas limit, gas used, block
number, base fee, withdrawals hash, blob fields), each evaluated on its own: the error of the
rule when the header violates it, `none` when it does not.  A rule that needs the parent is not
violated when the parent is not resolvable. -/
def rulesInOrder (env : Env) (header : Header) : List (Option VerifyError) :=
  let parent := env.getHeader header.ParentHash (parentNumber header.Number)
  [ (match header.Difficulty with
      | none => some VerifyError.errInvalidHybrid
      | some d =>
        if d = 1 ∨ d = 2 then none
        else some (VerifyError.invalidHybrid (Reason.difficultyNotOneOrTwo d))),
    (env.cliqueVerifyHeader header).map VerifyError.poaValidationFailed,
    (match parent with
      | none => some VerifyError.errUnknownAncestor
      | some _ => none),
    (if header.UncleHash = env.emptyUncleHash then none
      else some (VerifyError.invalidHybrid Reason.uncleHashNotEmpty)),
    parent.bind (fun p =>
      if p.Time < header.Time then none
      else some (VerifyError.invalidHybrid Reason.timestampNotGreater)),
    (if header.GasLimit ≤ env.maxGasLimit then none
      else some (VerifyError.invalidHybrid Reason.gasLimitExceedsMaximum)),
    (if header.GasUsed ≤ header.GasLimit then none
      else some (VerifyError.invalidHybrid Reason.gasUsedExceedsGasLimit)),
    parent.bind (fun p =>
      if header.Number = p.Number + 1 then none else some VerifyError.errInvalidNumber),
    parent.bind (fun p =>
      if env.isLondon header.Number = true then
        match header.BaseFee with
        | none => some (VerifyError.invalidHybrid Reason.baseFeeRequired)
        | some _ =>
          (env.verifyEIP1559Header p header).map VerifyError.eip1559ValidationFailed
      else none),
    (match env.isShanghai header.Number header.Time, header.WithdrawalsHash with
      | true, none => some (VerifyError.invalidHybrid Reason.withdrawalsHashRequired)
      | false, some _ => some (VerifyError.invalidHybrid Reason.withdrawalsHashNotAllowed)
      | _, _ => none),
    parent.bind (fun p =>
      if env.isCancun header.Number header.Time = true then
        match header.ParentBeaconRoot with
        | none => some (VerifyError.invalidHybrid Reason.missingBeaconRoot)
        | some _ =>
          (env.verifyEIP4844Header p header).map VerifyError.eip4844ValidationFailed
      else
        match header.ExcessBlobGas, header.BlobGasUsed, header.ParentBeaconRoot with
        | some excess, _, _ =>
          some (VerifyError.invalidHybrid (Reason.invalidExcessBlobGas excess))
        | none, some used, _ =>
          some (VerifyError.invalidHybrid (Reason.invalidBlobGasUsed used))
        | none, none, some root =>
          some (VerifyError.invalidHybrid (Reason.invalidParentBeaconRoot root))
        | none, none, none => none) ]

/-- The error of the first violated rule, in the order of `rulesInOrder`; `none` when no rule
is violated. -/
def firstViolation (env : Env) (header : Header) : Option VerifyError :=
  (rulesInOrder env header).findSome? id

/-- A header with difficulty 2, number 1, time 10 and none of the optional fields. -/
def exampleHeader : Header :=
  { ParentHash := zeroHash, UncleHash := zeroHash, Difficulty := some 2, Number := 1,
    GasLimit := 100, GasUsed := 50, Time := 10, BaseFee := none, WithdrawalsHash := none,
    BlobGasUsed := none, ExcessBlobGas := none, ParentBeaconRoot := none }

/-- The parent of `exampleHeader`: number 0, time 5. -/
def exampleParent : Header :=
  { ParentHash := zeroHash, UncleHash := zeroHash, Difficulty := some 2, Number := 0,
    GasLimit := 100, GasUsed := 0, Time := 5, BaseFee := none, WithdrawalsHash := none,
    BlobGasUsed := none, ExcessBlobGas := none, ParentBeaconRoot := none }

/-- Collaborators for examples: the authority engine answers `clique` for every header, the
chain holds `exampleParent` at number 0 when `hasParent`, London is not active, the two other
forks are active as given, and the fee checks accept. -/
def exampleEnv (clique : Option Error) (hasParent shanghai cancun : Bool) : Env :=
  { cliqueVerifyHeader := fun _ => clique
    getHeader := fun _ n => if hasParent = true ∧ n = 0 then some exampleParent else none
    isLondon := fun _ => false
    isShanghai := fun _ _ => shanghai
    isCancun := fun _ _ => cancun
    verifyEIP1559Header := fun _ _ => none
    verifyEIP4844Header := fun _ _ => none
    maxGasLimit := 2 ^ 63 - 1
    emptyUncleHash := zeroHash }

end Hybrid

/-! # System distribution transaction

A shallow embedding of `NewPoLTx`, `getDistributeForData`, `IsPoLDistribution` and
`isDistributeForCall` in `core/types/tx_pol.go`. -/

namespace Types

open Poapol

/-- `PoLTx`; a `nil` `*big.Int` is `none`, `uint64` fields are natural numbers. -/
structure PoLTx where
  ChainID : Option Int
  Nonce : Nat
  GasLimit : Nat
  GasPrice : Option Int
  From : Address
  To : Address
  Data : List Byte
  deriving DecidableEq

/-- The error values of `NewPoLTx`. -/
inductive TxError where
  -- `errors.New("pubkey is nil")`
  | pubkeyIsNil
  -- `errors.New("currentBlockNumber is less than 0. Must be greater than 0")`
  | blockNumberNotPositive
  -- an error returned by `distributeForMethod.Inputs.Pack`
  | packFailed (err : Error)
  deriving DecidableEq

/-- Modelled from the spec: what `tx_pol.go` takes from other packages.  `SystemAddress` is
`params.SystemAddress`, the reserved sentinel sender; `methodID` is `distributeForMethod.ID`, the
4-byte selector of `distributeFor`; `pack` is `distributeForMethod.Inputs.Pack`, the encoding of
the public key bytes as the sole argument, with its error. -/
structure TxEnv where
  SystemAddress : Address
  methodID : { l : List Byte // l.length = 4 }
  pack : List Byte → List Byte × Option Error

/-- `(*PoLTx).copy`. -/
def PoLTx.copy (tx : PoLTx) : PoLTx :=
  { ChainID := some (match tx.ChainID with
      | some c => c
      | none => 0)
    Nonce := tx.Nonce
    GasLimit := tx.GasLimit
    GasPrice := some (match tx.GasPrice with
      | some g => g
      | none => 0)
    From := tx.From
    To := tx.To
    Data := tx.Data }

/-- `(*PoLTx).to`: the address of the field `To`, never `nil`. -/
def PoLTx.to (tx : PoLTx) : Option Address := some tx.To

/-- Modelled from the spec: `Transaction`, the transaction object handed to the execution
engine; it holds the transaction data. -/
structure Transaction where
  inner : PoLTx
  deriving DecidableEq

/-- Modelled from the spec: `NewTx`, which builds the transaction object from a copy of the
transaction data. -/
def NewTx (inner : PoLTx) : Transaction := { inner := inner.copy }

/-- `currentBlockNumber.Uint64() - 1`: the low 64 bits of the absolute value, minus one in
`uint64` arithmetic. -/
def nonceOf (currentBlockNumber : Int) : Nat :=
  (currentBlockNumber.natAbs % 2 ^ 64 + (2 ^ 64 - 1)) % 2 ^ 64

/-- `getDistributeForData`; a public key is given by its bytes, `none` is the `nil` pointer. -/
def getDistributeForData (env : TxEnv) (pubkey : Option (List Byte)) :
    List Byte × Option TxError :=
  match pubkey with
  | none => ([], some TxError.pubkeyIsNil)
  | some key =>
    match env.pack key with
    | (_, some err) => ([], some (TxError.packFailed err))
    | (arguments, none) => (env.methodID.val ++ arguments, none)

/-- `NewPoLTx`. -/
def NewPoLTx (env : TxEnv) (chainID : Option Int) (distributorAddress : Address)
    (currentBlockNumber : Int) (gasLimit : Nat) (baseFee : Option Int)
    (pubkey : Option (List Byte)) : Option Transaction × Option TxError :=
  match getDistributeForData env pubkey with
  | (_, some err) => (none, some err)
  | (data, none) =>
    if currentBlockNumber ≤ 0 then
      (none, some TxError.blockNumberNotPositive)
    else
      (some (NewTx
        { ChainID := chainID
          Nonce := nonceOf currentBlockNumber
          GasLimit := gasLimit
          GasPrice := baseFee
          From := env.SystemAddress
          To := distributorAddress
          Data := data }), none)

/-- `isDistributeForCall`. -/
def isDistributeForCall (env : TxEnv) (data : List Byte) : Bool :=
  if data.length < 4 then false
  else decide (data.take 4 = env.methodID.val)

/-- `IsPoLDistribution`; `sender` is the parameter `from` and `recipient` the parameter `to`,
`none` for the `nil` pointer. -/
def IsPoLDistribution (env : TxEnv) (sender : Address) (recipient : Option Address)
    (data : List Byte) (distributorAddress : Address) : Bool :=
  decide (sender = env.SystemAddress) &&
    (match recipient with
      | none => false
      | some t => decide (t = distributorAddress) && isDistributeForCall env data)

/-- Modelled from the spec: the encoding of one argument of type `bytes`, a stand-in for
`distributeForMethod.Inputs.Pack` in examples: the offset word 32, the length word, and the
bytes padded with zeros to a multiple of 32; it returns no error. -/
def packBytes (key : List Byte) : List Byte × Option Error :=
  ((wordHash 32).val ++ (wordHash key.length).val ++ key ++
    List.replicate ((32 - key.length % 32) % 32) 0, none)

/-- Collaborators for examples: the sentinel `0xff..fe`, the selector `0x01020304` and
`packBytes`. -/
def exampleTxEnv : TxEnv :=
  { SystemAddress := ⟨List.replicate 19 255 ++ [254], by simp⟩
    methodID := ⟨[1, 2, 3, 4], by simp⟩
    pack := packBytes }

/-- The transaction that `NewPoLTx` builds from `exampleTxEnv` for chain ID 1, the distributor
address ending in `0x09`, block number 100, gas limit 21000, base fee 7 and the public key
bytes `010203`. -/
def exampleTx : Transaction :=
  NewTx
    { ChainID := some 1, Nonce := 99, GasLimit := 21000, GasPrice := some 7,
      From := exampleTxEnv.SystemAddress, To := addrOf 9,
      Data := [1, 2, 3, 4] ++ (packBytes [1, 2, 3]).1 }

end Types

namespace Poapol

/-! ## Byte-string arithmetic -/

theorem bigSetBytes_eq (buf : List Byte) : bigSetBytes buf = (beNat buf : Int) := rfl

theorem foldl_be (l : List Byte) (a : Nat) :
    l.foldl (fun acc b => acc * 256 + b.val) a = a * 256 ^ l.length + beNat l := by
  induction l generalizing a with
  | nil => simp [beNat]
  | cons b t ih =>
    simp only [List.foldl_cons, beNat, List.length_cons]
    rw [ih (a * 256 + b.val), ih (0 * 256 + b.val)]
    ring

theorem beNat_append (l m : List Byte) :
    beNat (l ++ m) = beNat l * 256 ^ m.length + beNat m := by
  unfold beNat
  rw [List.foldl_append, foldl_be]
  rfl

theorem beNat_replicate_zero (k : Nat) : beNat (List.replicate k (0 : Byte)) = 0 := by
  induction k with
  | zero => rfl
  | succ k ih =>
    rw [List.replicate_succ', beNat_append, ih]
    rfl

theorem beNat_lt (l : List Byte) : beNat l < 256 ^ l.length := by
  induction l using List.reverseRecOn with
  | nil => simp [beNat]
  | append_singleton t b ih =>
    have hb : beNat [b] = b.val := by simp [beNat]
    have hlt := b.isLt
    have hle : beNat t + 1 ≤ 256 ^ t.length := ih
    rw [beNat_append, List.length_append, List.length_singleton, hb, pow_one, pow_succ]
    calc beNat t * 256 + b.val < (beNat t + 1) * 256 := by omega
      _ ≤ 256 ^ t.length * 256 := Nat.mul_le_mul_right _ hle

theorem beNat_natBytesLE (fuel n : Nat) (h : n ≤ fuel) :
    beNat (natBytesLE fuel n).reverse = n := by
  induction fuel generalizing n with
  | zero =>
    have : n = 0 := by omega
    subst this
    rfl
  | succ fuel ih =>
    unfold natBytesLE
    split
    · next h0 => subst h0; rfl
    · next h0 =>
      rw [List.reverse_cons, beNat_append, ih (n / 256) (by omega)]
      simp only [List.length_singleton, pow_one, beNat, List.foldl_cons, List.foldl_nil]
      omega

theorem natBytesLE_length_le (fuel n k : Nat) (h : n < 256 ^ k) :
    (natBytesLE fuel n).length ≤ k := by
  induction fuel generalizing n k with
  | zero => simp [natBytesLE]
  | succ fuel ih =>
    unfold natBytesLE
    split
    · simp
    · next h0 =>
      cases k with
      | zero => simp at h; omega
      | succ k =>
        have hd : n / 256 < 256 ^ k := by
          rw [pow_succ] at h
          exact Nat.div_lt_of_lt_mul (by rw [Nat.mul_comm]; exact h)
        have := ih (n / 256) k hd
        simp only [List.length_cons]
        omega

theorem beNat_bigBytes (x : Int) : beNat (bigBytes x) = x.natAbs :=
  beNat_natBytesLE _ _ (Nat.le_refl _)

theorem bigBytes_length_le (x : Int) (k : Nat) (h : x.natAbs < 256 ^ k) :
    (bigBytes x).length ≤ k := by
  unfold bigBytes
  rw [List.length_reverse]
  exact natBytesLE_length_le _ _ _ h

/-- A 32-byte word denotes a number below `2^256`. -/
theorem beNat_hash_lt (h : Hash) : beNat h.val < 2 ^ 256 := by
  have := beNat_lt h.val
  rw [h.property] at this
  calc beNat h.val < 256 ^ 32 := this
    _ = 2 ^ 256 := by norm_num

theorem beNat_zeroHash : beNat zeroHash.val = 0 := beNat_replicate_zero 32

/-- The word written for a value that fits in 32 bytes is the value's minimal big-endian
form followed by zero bytes. -/
theorem hashFromBig_val_of_lt (x : Int) (h : x.natAbs < 256 ^ 32) :
    (hashFromBig x).val = bigBytes x ++ List.replicate (32 - (bigBytes x).length) 0 := by
  have hl := bigBytes_length_le x 32 h
  simp only [hashFromBig, copyBytes, zeroHash, List.length_replicate, List.drop_replicate]
  rw [List.take_of_length_le hl]

/-- Reading back the word written for `x` (with `|x| < 2^256`) gives `|x|` shifted left by the
number of bytes that `x` leaves unused. -/
theorem beNat_hashFromBig_of_lt (x : Int) (h : x.natAbs < 256 ^ 32) :
    beNat (hashFromBig x).val = x.natAbs * 256 ^ (32 - (bigBytes x).length) := by
  rw [hashFromBig_val_of_lt x h, beNat_append, beNat_replicate_zero, beNat_bigBytes,
    List.length_replicate]
  rfl

/-- Reading back never gives less than what was written, for a value in `[0, 2^256)`. -/
theorem le_bigSetBytes_hashFromBig (x : Int) (h0 : 0 ≤ x) (h1 : x < 2 ^ 256) :
    x ≤ bigSetBytes (hashFromBig x).val := by
  have hx : x.natAbs < 256 ^ 32 := by
    have : (256 : Nat) ^ 32 = 2 ^ 256 := by norm_num
    omega
  rw [bigSetBytes_eq, beNat_hashFromBig_of_lt x hx]
  have hpos : 1 ≤ 256 ^ (32 - (bigBytes x).length) := Nat.one_le_pow _ _ (by decide)
  have : x.natAbs ≤ x.natAbs * 256 ^ (32 - (bigBytes x).length) := Nat.le_mul_of_pos_right _ hpos
  omega

theorem bigSetBytes_nonneg (buf : List Byte) : 0 ≤ bigSetBytes buf := by
  rw [bigSetBytes_eq]; omega

theorem bigSetBytes_hash_lt (h : Hash) : bigSetBytes h.val < 2 ^ 256 := by
  rw [bigSetBytes_eq]
  have := beNat_hash_lt h
  exact_mod_cast this

/-- The zero test in `GetValidatorInfo` does not change the value that is read. -/
theorem readWord_eq (h : Hash) :
    (if h ≠ zeroHash then bigSetBytes h.val else 0) = bigSetBytes h.val := by
  by_cases hz : h = zeroHash
  · subst hz
    simp [bigSetBytes_eq, beNat_zeroHash]
  · simp [hz]

/-! ## Reading and writing a record -/

theorem GetValidatorInfo_err (keccak : List Byte → Hash) (state : StateDB)
    (validator : Address) : (GetValidatorInfo keccak state validator).2 = none := rfl

theorem GetValidatorInfo_fields (keccak : List Byte → Hash) (state : StateDB)
    (validator : Address) :
    (GetValidatorInfo keccak state validator).1 =
      { Address := validator
        BGTDelegated :=
          bigSetBytes (state.storage contractAddr (getValidatorSlot keccak validator 0)).val
        LiquidityStake :=
          bigSetBytes (state.storage contractAddr (getValidatorSlot keccak validator 1)).val
        TotalRewards :=
          bigSetBytes (state.storage contractAddr (getValidatorSlot keccak validator 2)).val } := by
  simp only [GetValidatorInfo, StateDB.GetState, readWord_eq]

/-- With pairwise different slots, reading after writing gives, field by field, the value of
the word that was written. -/
theorem get_set_of_distinct (keccak : List Byte → Hash) (state : StateDB) (info : ValidatorInfo)
    (h : SlotsDistinct keccak info.Address) :
    (GetValidatorInfo keccak (SetValidatorInfo keccak state info).1 info.Address).1 =
      { Address := info.Address
        BGTDelegated := bigSetBytes (hashFromBig info.BGTDelegated).val
        LiquidityStake := bigSetBytes (hashFromBig info.LiquidityStake).val
        TotalRewards := bigSetBytes (hashFromBig info.TotalRewards).val } := by
  obtain ⟨h01, h02, h12⟩ := h
  rw [GetValidatorInfo_fields]
  simp only [SetValidatorInfo, StateDB.SetState, true_and, if_true, h01, h02, h12, if_false]

/-- The rewards slot is written last, so `totalRewards` reads back as the word written for it,
whatever the slots are. -/
theorem get_set_totalRewards (keccak : List Byte → Hash) (state : StateDB)
    (info : ValidatorInfo) :
    (GetValidatorInfo keccak (SetValidatorInfo keccak state info).1 info.Address).1.TotalRewards =
      bigSetBytes (hashFromBig info.TotalRewards).val := by
  rw [GetValidatorInfo_fields]
  simp only [SetValidatorInfo, StateDB.SetState, true_and, if_true]

theorem get_emptyState (keccak : List Byte → Hash) (validator : Address) :
    (GetValidatorInfo keccak emptyState validator).1 =
      { Address := validator, BGTDelegated := 0, LiquidityStake := 0, TotalRewards := 0 } := by
  rw [GetValidatorInfo_fields]
  simp only [emptyState, constState, bigSetBytes_eq, beNat_zeroHash]
  rfl

set_option maxRecDepth 100000 in
theorem readBack_one : bigSetBytes (hashFromBig 1).val = 2 ^ 248 := by decide

set_option maxRecDepth 100000 in
theorem readBack_two : bigSetBytes (hashFromBig 2).val = 2 * 2 ^ 248 := by decide

set_option maxRecDepth 100000 in
theorem readBack_three : bigSetBytes (hashFromBig 3).val = 3 * 2 ^ 248 := by decide

set_option maxRecDepth 100000 in
theorem readBack_zero : bigSetBytes (hashFromBig 0).val = 0 := by decide

/-! ## Ledger operations -/

/-- C1: writing the record (1, 2, 3) and reading it back does not return the record: every
value is stored left-aligned in its word, so each field reads back multiplied by `2^248`. -/
theorem set_then_get_left_aligned (keccak : List Byte → Hash) (state : StateDB)
    (validator : Address) (h : SlotsDistinct keccak validator) :
    GetValidatorInfo keccak
        (SetValidatorInfo keccak state
          { Address := validator, BGTDelegated := 1, LiquidityStake := 2, TotalRewards := 3 }).1
        validator =
      ({ Address := validator, BGTDelegated := 2 ^ 248, LiquidityStake := 2 * 2 ^ 248,
         TotalRewards := 3 * 2 ^ 248 }, none) := by
  refine Prod.ext ?_ rfl
  have := get_set_of_distinct keccak state
    { Address := validator, BGTDelegated := 1, LiquidityStake := 2, TotalRewards := 3 } h
  simp only [readBack_one, readBack_two, readBack_three] at this
  exact this

theorem set_then_get_left_aligned_witness :
    SlotsDistinct padHash (addrOf 1) ∧
    GetValidatorInfo padHash
        (SetValidatorInfo padHash emptyState
          { Address := addrOf 1, BGTDelegated := 1, LiquidityStake := 2, TotalRewards := 3 }).1
        (addrOf 1) =
      ({ Address := addrOf 1, BGTDelegated := 2 ^ 248, LiquidityStake := 2 * 2 ^ 248,
         TotalRewards := 3 * 2 ^ 248 }, none) :=
  ⟨by decide, set_then_get_left_aligned padHash emptyState (addrOf 1) (by decide)⟩

set_option maxRecDepth 100000 in
theorem readBack_pow_248_sub_one :
    bigSetBytes (hashFromBig (2 ^ 248 - 1)).val = 2 ^ 256 - 256 := by decide

/-- C4: on the empty state, adding a delegation of 1 succeeds, and afterwards the delegated
stake reads `2^248`, not `0 + 1`. -/
theorem add_delegation_left_aligned (keccak : List Byte → Hash) (validator : Address)
    (h : SlotsDistinct keccak validator) :
    (GetValidatorInfo keccak emptyState validator).1.BGTDelegated = 0 ∧
    (AddBGTDelegation keccak emptyState validator 1).2 = none ∧
    (GetValidatorInfo keccak (AddBGTDelegation keccak emptyState validator 1).1
        validator).1.BGTDelegated = 2 ^ 248 := by
  refine ⟨by rw [get_emptyState], rfl, ?_⟩
  have hadd : AddBGTDelegation keccak emptyState validator 1 =
      SetValidatorInfo keccak emptyState
        { Address := validator, BGTDelegated := 1, LiquidityStake := 0, TotalRewards := 0 } := by
    have h0 := get_emptyState keccak validator
    unfold AddBGTDelegation
    rw [show GetValidatorInfo keccak emptyState validator =
      ((GetValidatorInfo keccak emptyState validator).1, none) from rfl, h0]
    rfl
  rw [hadd]
  have := get_set_of_distinct keccak emptyState
    { Address := validator, BGTDelegated := 1, LiquidityStake := 0, TotalRewards := 0 } h
  rw [this]
  exact readBack_one

theorem add_delegation_left_aligned_witness :
    SlotsDistinct padHash (addrOf 1) ∧
    (GetValidatorInfo padHash emptyState (addrOf 1)).1.BGTDelegated = 0 ∧
    (AddBGTDelegation padHash emptyState (addrOf 1) 1).2 = none ∧
    (GetValidatorInfo padHash (AddBGTDelegation padHash emptyState (addrOf 1) 1).1
        (addrOf 1)).1.BGTDelegated = 2 ^ 248 :=
  ⟨by decide, add_delegation_left_aligned padHash (addrOf 1) (by decide)⟩

theorem RemoveBGTDelegation_eq_of_lt (keccak : List Byte → Hash) (state : StateDB)
    (validator : Address) (amount : Int)
    (h : (GetValidatorInfo keccak state validator).1.BGTDelegated < amount) :
    RemoveBGTDelegation keccak state validator amount =
      (state, some Error.errInsufficientDelegation) := by
  unfold RemoveBGTDelegation
  rw [show GetValidatorInfo keccak state validator =
    ((GetValidatorInfo keccak state validator).1, none) from rfl]
  simp only
  rw [if_pos h]

/-- C3: removing more than the delegated stake read from the state returns the
insufficient-delegation error, and the state returned is the state given: no storage slot
has changed. -/
theorem remove_delegation_insufficient (keccak : List Byte → Hash) (state : StateDB)
    (validator : Address) (amount : Int)
    (h : amount > (GetValidatorInfo keccak state validator).1.BGTDelegated) :
    RemoveBGTDelegation keccak state validator amount =
      (state, some Error.errInsufficientDelegation) :=
  RemoveBGTDelegation_eq_of_lt keccak state validator amount h

theorem remove_delegation_insufficient_witness :
    (1 : Int) > (GetValidatorInfo padHash emptyState (addrOf 1)).1.BGTDelegated ∧
    RemoveBGTDelegation padHash emptyState (addrOf 1) 1 =
      (emptyState, some Error.errInsufficientDelegation) :=
  ⟨by decide, remove_delegation_insufficient padHash emptyState (addrOf 1) 1 (by decide)⟩

theorem AddBGTDelegation_eq (keccak : List Byte → Hash) (state : StateDB)
    (validator : Address) (amount : Int) :
    AddBGTDelegation keccak state validator amount =
      SetValidatorInfo keccak state
        { Address := validator
          BGTDelegated := (GetValidatorInfo keccak state validator).1.BGTDelegated + amount
          LiquidityStake := (GetValidatorInfo keccak state validator).1.LiquidityStake
          TotalRewards := (GetValidatorInfo keccak state validator).1.TotalRewards } :=
  rfl

theorem RemoveBGTDelegation_eq_of_le (keccak : List Byte → Hash) (state : StateDB)
    (validator : Address) (amount : Int)
    (h : amount ≤ (GetValidatorInfo keccak state validator).1.BGTDelegated) :
    RemoveBGTDelegation keccak state validator amount =
      SetValidatorInfo keccak state
        { Address := validator
          BGTDelegated := (GetValidatorInfo keccak state validator).1.BGTDelegated - amount
          LiquidityStake := (GetValidatorInfo keccak state validator).1.LiquidityStake
          TotalRewards := (GetValidatorInfo keccak state validator).1.TotalRewards } := by
  unfold RemoveBGTDelegation
  rw [show GetValidatorInfo keccak state validator =
    ((GetValidatorInfo keccak state validator).1, none) from rfl]
  simp only
  rw [if_neg (by omega)]
  rfl

theorem SetValidatorInfo_err (keccak : List Byte → Hash) (state : StateDB)
    (info : ValidatorInfo) : (SetValidatorInfo keccak state info).2 = none := rfl

/-- C2: on the empty state, adding a delegation of 1 and removing it again both succeed, but
the delegated stake then reads `2^256 - 256` instead of its initial value 0. -/
theorem add_then_remove_not_restored (keccak : List Byte → Hash) (validator : Address)
    (h : SlotsDistinct keccak validator) :
    (GetValidatorInfo keccak emptyState validator).1.BGTDelegated = 0 ∧
    (AddBGTDelegation keccak emptyState validator 1).2 = none ∧
    (RemoveBGTDelegation keccak (AddBGTDelegation keccak emptyState validator 1).1
        validator 1).2 = none ∧
    (GetValidatorInfo keccak
        (RemoveBGTDelegation keccak (AddBGTDelegation keccak emptyState validator 1).1
          validator 1).1 validator).1.BGTDelegated = 2 ^ 256 - 256 := by
  have hget1 : (GetValidatorInfo keccak (AddBGTDelegation keccak emptyState validator 1).1
      validator).1 =
      { Address := validator, BGTDelegated := 2 ^ 248, LiquidityStake := 0,
        TotalRewards := 0 } := by
    rw [AddBGTDelegation_eq, get_emptyState]
    have := get_set_of_distinct keccak emptyState
      { Address := validator, BGTDelegated := 0 + 1, LiquidityStake := 0, TotalRewards := 0 } h
    simp only [zero_add, readBack_one, readBack_zero] at this
    exact this
  have hrem := RemoveBGTDelegation_eq_of_le keccak
    (AddBGTDelegation keccak emptyState validator 1).1 validator 1
    (by rw [hget1]; norm_num)
  refine ⟨by rw [get_emptyState], rfl, by rw [hrem]; rfl, ?_⟩
  rw [hrem, hget1]
  have := get_set_of_distinct keccak (AddBGTDelegation keccak emptyState validator 1).1
    { Address := validator, BGTDelegated := 2 ^ 248 - 1, LiquidityStake := 0,
      TotalRewards := 0 } h
  rw [this]
  exact readBack_pow_248_sub_one

theorem add_then_remove_not_restored_witness :
    SlotsDistinct padHash (addrOf 1) ∧
    (GetValidatorInfo padHash emptyState (addrOf 1)).1.BGTDelegated = 0 ∧
    (AddBGTDelegation padHash emptyState (addrOf 1) 1).2 = none ∧
    (RemoveBGTDelegation padHash (AddBGTDelegation padHash emptyState (addrOf 1) 1).1
        (addrOf 1) 1).2 = none ∧
    (GetValidatorInfo padHash
        (RemoveBGTDelegation padHash (AddBGTDelegation padHash emptyState (addrOf 1) 1).1
          (addrOf 1) 1).1 (addrOf 1)).1.BGTDelegated = 2 ^ 256 - 256 :=
  ⟨by decide, add_then_remove_not_restored padHash (addrOf 1) (by decide)⟩

/-! ## Reward step -/

theorem calculatePOLReward_fst (keccak : List Byte → Hash) (config : POAPOLConfig)
    (validator : Address) (state : StateDB) :
    (calculatePOLReward keccak config validator state).1 =
      if (GetValidatorInfo keccak state validator).1.BGTDelegated > 0 then
        config.BlockReward +
          config.DelegationWeight * (GetValidatorInfo keccak state validator).1.BGTDelegated / 1000
      else config.BlockReward := rfl

theorem calculatePOLReward_snd (keccak : List Byte → Hash) (config : POAPOLConfig)
    (validator : Address) (state : StateDB) :
    (calculatePOLReward keccak config validator state).2 =
      (SetValidatorInfo keccak state
        { Address := validator
          BGTDelegated := (GetValidatorInfo keccak state validator).1.BGTDelegated
          LiquidityStake := (GetValidatorInfo keccak state validator).1.LiquidityStake
          TotalRewards := (GetValidatorInfo keccak state validator).1.TotalRewards +
            (calculatePOLReward keccak config validator state).1 }).1 := rfl

theorem BGTDelegated_nonneg (keccak : List Byte → Hash) (state : StateDB)
    (validator : Address) : 0 ≤ (GetValidatorInfo keccak state validator).1.BGTDelegated := by
  rw [GetValidatorInfo_fields]
  exact bigSetBytes_nonneg _

theorem calculatePOLReward_fst_eq (keccak : List Byte → Hash) (config : POAPOLConfig)
    (validator : Address) (state : StateDB) :
    (calculatePOLReward keccak config validator state).1 =
      config.BlockReward +
        config.DelegationWeight * (GetValidatorInfo keccak state validator).1.BGTDelegated / 1000 := by
  have hnn := BGTDelegated_nonneg keccak state validator
  rw [calculatePOLReward_fst]
  split
  · rfl
  · next hd =>
    have : (GetValidatorInfo keccak state validator).1.BGTDelegated = 0 := by omega
    rw [this]
    simp

theorem BGTDelegated_of_noRecord (keccak : List Byte → Hash) (state : StateDB)
    (validator : Address) (hno : NoRecord keccak state validator) :
    (GetValidatorInfo keccak state validator).1.BGTDelegated = 0 := by
  rw [GetValidatorInfo_fields]
  have h0 := hno.1
  simp only [StateDB.GetState] at h0
  simp only [h0, bigSetBytes_eq, beNat_zeroHash]
  rfl

/-- C6: the reward returned is `BlockReward + ⌊DelegationWeight * d / 1000⌋`, the floor of the
rational quotient, with `d` the delegated stake read from the state; it is `BlockReward` when
no record is stored for the validator. -/
theorem calculatePOLReward_value (keccak : List Byte → Hash) (config : POAPOLConfig)
    (validator : Address) (state : StateDB) :
    (calculatePOLReward keccak config validator state).1 =
      config.BlockReward +
        ⌊((config.DelegationWeight *
            (GetValidatorInfo keccak state validator).1.BGTDelegated : Int) : ℚ) / 1000⌋ ∧
    (NoRecord keccak state validator →
      (calculatePOLReward keccak config validator state).1 = config.BlockReward) := by
  constructor
  · rw [calculatePOLReward_fst_eq]
    have := Rat.floor_intCast_div_natCast
      (config.DelegationWeight * (GetValidatorInfo keccak state validator).1.BGTDelegated) 1000
    simp only [Nat.cast_ofNat] at this
    rw [this]
  · intro hno
    rw [calculatePOLReward_fst_eq, BGTDelegated_of_noRecord keccak state validator hno]
    simp

theorem calculatePOLReward_value_witness :
    NoRecord padHash emptyState (addrOf 1) ∧
    (calculatePOLReward padHash
      { BGTContractAddress := zeroAddress, RewardVaultAddress := zeroAddress,
        MinLiquidityStake := 0, DelegationWeight := 1, BlockReward := 7 }
      (addrOf 1) emptyState).1 = 7 :=
  ⟨by decide, (calculatePOLReward_value padHash _ (addrOf 1) emptyState).2 (by decide)⟩

set_option maxRecDepth 100000 in
theorem readBack_pow_248_add_one :
    bigSetBytes (hashFromBig (2 ^ 248 + 1)).val = 2 ^ 248 + 1 := by decide

set_option maxRecDepth 100000 in
theorem readBack_five : bigSetBytes (hashFromBig 5).val = 5 * 2 ^ 248 := by decide

theorem bigSetBytes_wordHash_five : bigSetBytes (wordHash 5).val = 5 := by decide

/-- C5: on the empty state with block reward 1, two reward steps return 1 and 1, but the
total then reads `2^248 + 1`, not `0 + 1 + 1`. -/
theorem reward_twice_not_additive (keccak : List Byte → Hash) (validator : Address)
    (h : SlotsDistinct keccak validator) :
    (GetValidatorInfo keccak emptyState validator).1.TotalRewards = 0 ∧
    (calculatePOLReward keccak unitConfig validator emptyState).1 = 1 ∧
    (calculatePOLReward keccak unitConfig validator
      (calculatePOLReward keccak unitConfig validator emptyState).2).1 = 1 ∧
    (GetValidatorInfo keccak
      (calculatePOLReward keccak unitConfig validator
        (calculatePOLReward keccak unitConfig validator emptyState).2).2
      validator).1.TotalRewards = 2 ^ 248 + 1 := by
  have h1 : (calculatePOLReward keccak unitConfig validator emptyState).1 = 1 := by
    rw [calculatePOLReward_fst, get_emptyState]
    rfl
  have hs1 : (GetValidatorInfo keccak
      (calculatePOLReward keccak unitConfig validator emptyState).2 validator).1 =
      { Address := validator, BGTDelegated := 0, LiquidityStake := 0,
        TotalRewards := 2 ^ 248 } := by
    rw [calculatePOLReward_snd, h1, get_emptyState]
    have := get_set_of_distinct keccak emptyState
      { Address := validator, BGTDelegated := 0, LiquidityStake := 0, TotalRewards := 0 + 1 } h
    simp only [zero_add, readBack_one, readBack_zero] at this
    exact this
  have h2 : (calculatePOLReward keccak unitConfig validator
      (calculatePOLReward keccak unitConfig validator emptyState).2).1 = 1 := by
    rw [calculatePOLReward_fst, hs1]
    rfl
  refine ⟨by rw [get_emptyState], h1, h2, ?_⟩
  rw [calculatePOLReward_snd, h2, hs1]
  have := get_set_of_distinct keccak (calculatePOLReward keccak unitConfig validator emptyState).2
    { Address := validator, BGTDelegated := 0, LiquidityStake := 0,
      TotalRewards := 2 ^ 248 + 1 } h
  rw [this]
  exact readBack_pow_248_add_one

theorem reward_twice_not_additive_witness :
    SlotsDistinct padHash (addrOf 1) ∧
    (GetValidatorInfo padHash emptyState (addrOf 1)).1.TotalRewards = 0 ∧
    (calculatePOLReward padHash unitConfig (addrOf 1) emptyState).1 = 1 ∧
    (calculatePOLReward padHash unitConfig (addrOf 1)
      (calculatePOLReward padHash unitConfig (addrOf 1) emptyState).2).1 = 1 ∧
    (GetValidatorInfo padHash
      (calculatePOLReward padHash unitConfig (addrOf 1)
        (calculatePOLReward padHash unitConfig (addrOf 1) emptyState).2).2
      (addrOf 1)).1.TotalRewards = 2 ^ 248 + 1 :=
  ⟨by decide, reward_twice_not_additive padHash (addrOf 1) (by decide)⟩

theorem get_stakeFiveState (keccak : List Byte → Hash) (validator : Address)
    (h : SlotsDistinct keccak validator) :
    (GetValidatorInfo keccak (stakeFiveState keccak validator) validator).1 =
      { Address := validator, BGTDelegated := 5, LiquidityStake := 0, TotalRewards := 0 } := by
  obtain ⟨h01, h02, -⟩ := h
  rw [GetValidatorInfo_fields]
  simp only [stakeFiveState, StateDB.SetState, true_and, if_true, Ne.symm h01, Ne.symm h02,
    if_false, bigSetBytes_wordHash_five, emptyState, constState, bigSetBytes_eq, beNat_zeroHash]
  rfl

/-- C9: when the delegated-stake slot holds the word of value 5, the reward step changes the
delegated stake that is read from 5 to `5 * 2^248`. -/
theorem reward_step_changes_delegatedStake (keccak : List Byte → Hash) (validator : Address)
    (h : SlotsDistinct keccak validator) :
    (GetValidatorInfo keccak (stakeFiveState keccak validator) validator).1.BGTDelegated = 5 ∧
    (GetValidatorInfo keccak
      (calculatePOLReward keccak unitConfig validator (stakeFiveState keccak validator)).2
      validator).1.BGTDelegated = 5 * 2 ^ 248 := by
  have hg := get_stakeFiveState keccak validator h
  refine ⟨by rw [hg], ?_⟩
  rw [calculatePOLReward_snd, hg]
  have := get_set_of_distinct keccak (stakeFiveState keccak validator)
    { Address := validator, BGTDelegated := 5, LiquidityStake := 0,
      TotalRewards := 0 + (calculatePOLReward keccak unitConfig validator
        (stakeFiveState keccak validator)).1 } h
  rw [this]
  exact readBack_five

theorem reward_step_changes_delegatedStake_witness :
    SlotsDistinct padHash (addrOf 1) ∧
    (GetValidatorInfo padHash (stakeFiveState padHash (addrOf 1)) (addrOf 1)).1.BGTDelegated = 5 ∧
    (GetValidatorInfo padHash
      (calculatePOLReward padHash unitConfig (addrOf 1) (stakeFiveState padHash (addrOf 1))).2
      (addrOf 1)).1.BGTDelegated = 5 * 2 ^ 248 :=
  ⟨by decide, reward_step_changes_delegatedStake padHash (addrOf 1) (by decide)⟩

/-! ## Crediting the reward -/

theorem uint256Sub_zero_one : uint256Sub 0 1 = 2 ^ 256 - 1 := by decide

theorem uint256FromBig_of_fits (r : Int) (h0 : 0 < r) (h1 : r < 2 ^ 256) :
    uint256FromBig r = (r.toNat, false) := by
  have hn : r.natAbs = r.toNat := by omega
  have hlt : r.toNat < 2 ^ 256 := by omega
  unfold uint256FromBig
  simp only [hn, Nat.mod_eq_of_lt hlt, if_neg (not_lt.mpr (le_of_lt h0))]
  refine Prod.ext rfl ?_
  simp only [decide_eq_false_iff_not, not_le]
  exact hlt

theorem uint256FromBig_overflow (r : Int) (h : 2 ^ 256 ≤ r) :
    (uint256FromBig r).2 = true := by
  unfold uint256FromBig
  simp only [decide_eq_true_eq]
  omega

theorem AddBalance_storage (s : StateDB) (addr : Address) (amount : Nat) :
    (s.AddBalance addr amount).storage = s.storage := rfl

theorem SetValidatorInfo_balance (keccak : List Byte → Hash) (state : StateDB)
    (info : ValidatorInfo) : (SetValidatorInfo keccak state info).1.balance = state.balance :=
  rfl

theorem calculatePOLReward_balance (keccak : List Byte → Hash) (config : POAPOLConfig)
    (validator : Address) (state : StateDB) :
    (calculatePOLReward keccak config validator state).2.balance = state.balance := rfl

/-- C7: when the authority engine names the proposer, `finalizePOL` credits the reward itself
if `0 < reward < 2^256`, credits `2^256 - 1` if `reward ≥ 2^256`, and makes no credit (all
balances stay as they were) if `reward ≤ 0`. -/
theorem finalizePOL_credit {Header : Type} (keccak : List Byte → Hash) (config : POAPOLConfig)
    (cliqueAuthor : Header → Address × Option Error) (header : Header) (state : StateDB)
    (validator : Address) (hauthor : cliqueAuthor header = (validator, none)) :
    (0 < (calculatePOLReward keccak config validator state).1 →
      (calculatePOLReward keccak config validator state).1 < 2 ^ 256 →
      finalizePOL keccak config cliqueAuthor header state =
        (calculatePOLReward keccak config validator state).2.AddBalance validator
          (calculatePOLReward keccak config validator state).1.toNat) ∧
    (2 ^ 256 ≤ (calculatePOLReward keccak config validator state).1 →
      finalizePOL keccak config cliqueAuthor header state =
        (calculatePOLReward keccak config validator state).2.AddBalance validator
          (2 ^ 256 - 1)) ∧
    ((calculatePOLReward keccak config validator state).1 ≤ 0 →
      finalizePOL keccak config cliqueAuthor header state =
        (calculatePOLReward keccak config validator state).2 ∧
      (finalizePOL keccak config cliqueAuthor header state).balance = state.balance) := by
  have hfin : finalizePOL keccak config cliqueAuthor header state =
      if (calculatePOLReward keccak config validator state).1 > 0 then
        (calculatePOLReward keccak config validator state).2.AddBalance validator
          (if (uint256FromBig (calculatePOLReward keccak config validator state).1).2 then
            uint256Sub 0 1
          else (uint256FromBig (calculatePOLReward keccak config validator state).1).1)
      else (calculatePOLReward keccak config validator state).2 := by
    unfold finalizePOL
    rw [hauthor]
  refine ⟨?_, ?_, ?_⟩
  · intro h0 h1
    rw [hfin, if_pos h0, uint256FromBig_of_fits _ h0 h1]
    rfl
  · intro h
    have hpos : (calculatePOLReward keccak config validator state).1 > 0 :=
      lt_of_lt_of_le (by positivity) h
    rw [hfin, if_pos hpos, uint256FromBig_overflow _ h, if_pos rfl, uint256Sub_zero_one]
  · intro h
    have hfin2 : finalizePOL keccak config cliqueAuthor header state =
        (calculatePOLReward keccak config validator state).2 := by
      rw [hfin, if_neg (not_lt.mpr h)]
    exact ⟨hfin2, by rw [hfin2, calculatePOLReward_balance]⟩

set_option maxRecDepth 100000 in
theorem finalizePOL_credit_witness :
    (0 < (calculatePOLReward padHash unitConfig (addrOf 1) emptyState).1 ∧
      (calculatePOLReward padHash unitConfig (addrOf 1) emptyState).1 < 2 ^ 256 ∧
      finalizePOL padHash unitConfig authorOne () emptyState =
        (calculatePOLReward padHash unitConfig (addrOf 1) emptyState).2.AddBalance (addrOf 1)
          (calculatePOLReward padHash unitConfig (addrOf 1) emptyState).1.toNat) ∧
    (2 ^ 256 ≤ (calculatePOLReward padHash (flatConfig (2 ^ 256)) (addrOf 1) emptyState).1 ∧
      finalizePOL padHash (flatConfig (2 ^ 256)) authorOne () emptyState =
        (calculatePOLReward padHash (flatConfig (2 ^ 256)) (addrOf 1) emptyState).2.AddBalance
          (addrOf 1) (2 ^ 256 - 1)) ∧
    ((calculatePOLReward padHash (flatConfig 0) (addrOf 1) emptyState).1 ≤ 0 ∧
      finalizePOL padHash (flatConfig 0) authorOne () emptyState =
        (calculatePOLReward padHash (flatConfig 0) (addrOf 1) emptyState).2 ∧
      (finalizePOL padHash (flatConfig 0) authorOne () emptyState).balance =
        emptyState.balance) :=
  ⟨⟨by decide, by decide,
      (finalizePOL_credit padHash unitConfig authorOne () emptyState (addrOf 1) rfl).1
        (by decide) (by decide)⟩,
    ⟨by decide,
      (finalizePOL_credit padHash (flatConfig (2 ^ 256)) authorOne () emptyState (addrOf 1)
        rfl).2.1 (by decide)⟩,
    ⟨by decide,
      (finalizePOL_credit padHash (flatConfig 0) authorOne () emptyState (addrOf 1) rfl).2.2
        (by decide)⟩⟩

/-! ## Monotonicity of the running total -/

set_option maxRecDepth 100000 in
/-- C8, as stated, fails: when the rewards slot holds `2^256 - 1` and the block reward is 1,
the new total `2^256` needs 33 bytes, the word keeps its first 32, and the total read after
the reward step is `2^248`. -/
theorem totalRewards_decreases_on_overflow :
    0 ≤ (flatConfig 1).BlockReward ∧ 0 ≤ (flatConfig 1).DelegationWeight ∧
    (GetValidatorInfo padHash (constState maxHash) (addrOf 1)).1.TotalRewards = 2 ^ 256 - 1 ∧
    (GetValidatorInfo padHash
      (calculatePOLReward padHash (flatConfig 1) (addrOf 1) (constState maxHash)).2
      (addrOf 1)).1.TotalRewards = 2 ^ 248 ∧
    ¬ ((GetValidatorInfo padHash (constState maxHash) (addrOf 1)).1.TotalRewards ≤
      (GetValidatorInfo padHash
        (calculatePOLReward padHash (flatConfig 1) (addrOf 1) (constState maxHash)).2
        (addrOf 1)).1.TotalRewards) := by
  decide

theorem TotalRewards_nonneg (keccak : List Byte → Hash) (state : StateDB)
    (validator : Address) : 0 ≤ (GetValidatorInfo keccak state validator).1.TotalRewards := by
  rw [GetValidatorInfo_fields]
  exact bigSetBytes_nonneg _

theorem TotalRewards_lt (keccak : List Byte → Hash) (state : StateDB)
    (validator : Address) : (GetValidatorInfo keccak state validator).1.TotalRewards < 2 ^ 256 := by
  rw [GetValidatorInfo_fields]
  exact bigSetBytes_hash_lt _

theorem calculatePOLReward_nonneg (keccak : List Byte → Hash) (config : POAPOLConfig)
    (validator : Address) (state : StateDB) (hb : 0 ≤ config.BlockReward)
    (hw : 0 ≤ config.DelegationWeight) :
    0 ≤ (calculatePOLReward keccak config validator state).1 := by
  rw [calculatePOLReward_fst_eq]
  have hd := BGTDelegated_nonneg keccak state validator
  have : 0 ≤ config.DelegationWeight *
      (GetValidatorInfo keccak state validator).1.BGTDelegated / 1000 :=
    Int.ediv_nonneg (mul_nonneg hw hd) (by norm_num)
  omega

/-- C8, amended: the total read after the reward step is at least the total read before it
when the block reward and the delegation weight are non-negative and the new total stays
below `2^256`; after `AddBGTDelegation` and after `RemoveBGTDelegation` (failed or not) it is
at least the total read before, for every amount. -/
theorem totalRewards_monotone (keccak : List Byte → Hash) (config : POAPOLConfig)
    (validator : Address) (state : StateDB) (amount : Int) :
    (0 ≤ config.BlockReward → 0 ≤ config.DelegationWeight →
      (GetValidatorInfo keccak state validator).1.TotalRewards +
        (calculatePOLReward keccak config validator state).1 < 2 ^ 256 →
      (GetValidatorInfo keccak state validator).1.TotalRewards ≤
        (GetValidatorInfo keccak (calculatePOLReward keccak config validator state).2
          validator).1.TotalRewards) ∧
    (GetValidatorInfo keccak state validator).1.TotalRewards ≤
      (GetValidatorInfo keccak (AddBGTDelegation keccak state validator amount).1
        validator).1.TotalRewards ∧
    (GetValidatorInfo keccak state validator).1.TotalRewards ≤
      (GetValidatorInfo keccak (RemoveBGTDelegation keccak state validator amount).1
        validator).1.TotalRewards := by
  have ht0 := TotalRewards_nonneg keccak state validator
  have ht1 := TotalRewards_lt keccak state validator
  have hkeep := le_bigSetBytes_hashFromBig _ ht0 ht1
  refine ⟨?_, ?_, ?_⟩
  · intro hb hw hlt
    have hr := calculatePOLReward_nonneg keccak config validator state hb hw
    rw [calculatePOLReward_snd]
    have hgs := get_set_totalRewards keccak state
      { Address := validator
        BGTDelegated := (GetValidatorInfo keccak state validator).1.BGTDelegated
        LiquidityStake := (GetValidatorInfo keccak state validator).1.LiquidityStake
        TotalRewards := (GetValidatorInfo keccak state validator).1.TotalRewards +
          (calculatePOLReward keccak config validator state).1 }
    rw [hgs]
    have := le_bigSetBytes_hashFromBig _ (add_nonneg ht0 hr) hlt
    exact le_trans (by omega) this
  · rw [AddBGTDelegation_eq]
    have hgs := get_set_totalRewards keccak state
      { Address := validator
        BGTDelegated := (GetValidatorInfo keccak state validator).1.BGTDelegated + amount
        LiquidityStake := (GetValidatorInfo keccak state validator).1.LiquidityStake
        TotalRewards := (GetValidatorInfo keccak state validator).1.TotalRewards }
    rw [hgs]
    exact hkeep
  · by_cases hle : amount ≤ (GetValidatorInfo keccak state validator).1.BGTDelegated
    · rw [RemoveBGTDelegation_eq_of_le keccak state validator amount hle]
      have hgs := get_set_totalRewards keccak state
        { Address := validator
          BGTDelegated := (GetValidatorInfo keccak state validator).1.BGTDelegated - amount
          LiquidityStake := (GetValidatorInfo keccak state validator).1.LiquidityStake
          TotalRewards := (GetValidatorInfo keccak state validator).1.TotalRewards }
      rw [hgs]
      exact hkeep
    · rw [RemoveBGTDelegation_eq_of_lt keccak state validator amount (by omega)]

set_option maxRecDepth 100000 in
theorem totalRewards_monotone_witness :
    0 ≤ unitConfig.BlockReward ∧ 0 ≤ unitConfig.DelegationWeight ∧
    (GetValidatorInfo padHash emptyState (addrOf 1)).1.TotalRewards +
      (calculatePOLReward padHash unitConfig (addrOf 1) emptyState).1 < 2 ^ 256 ∧
    (GetValidatorInfo padHash emptyState (addrOf 1)).1.TotalRewards ≤
      (GetValidatorInfo padHash (calculatePOLReward padHash unitConfig (addrOf 1) emptyState).2
        (addrOf 1)).1.TotalRewards :=
  ⟨by decide, by decide, by decide,
    (totalRewards_monotone padHash unitConfig (addrOf 1) emptyState 0).1
      (by decide) (by decide) (by decide)⟩

/-! ## Selection -/

/-- C10: with delegated stakes A:5, B:9, C:9 the result depends on the order in which the
map is visited: visiting the entries in insertion order gives B, visiting them in the reverse
order gives C.  Both orders are permutations of the entries, so both are orders that `range`
may take. -/
theorem select_depends_on_map_order (keccak : List Byte → Hash) (state : StateDB)
    (a b c : Address) (hab : a ≠ b) (hac : a ≠ c) (hbc : b ≠ c)
    (ha : (GetValidatorInfo keccak state a).1.BGTDelegated = 5)
    (hb : (GetValidatorInfo keccak state b).1.BGTDelegated = 9)
    (hc : (GetValidatorInfo keccak state c).1.BGTDelegated = 9) :
    SelectValidator keccak id state [a, b, c] = (b, none) ∧
    SelectValidator keccak List.reverse state [a, b, c] = (c, none) := by
  have step : ∀ (acc : Int × DelegationMap) (v : Address),
      (match GetValidatorInfo keccak state v with
        | (_, some _) => (acc.1, acc.2.set v 0)
        | (info, none) => (acc.1 + info.BGTDelegated, acc.2.set v info.BGTDelegated)) =
      (acc.1 + (GetValidatorInfo keccak state v).1.BGTDelegated,
        acc.2.set v (GetValidatorInfo keccak state v).1.BGTDelegated) := by
    intro acc v
    rfl
  have hfold : List.foldl
      (fun (acc : Int × DelegationMap) validator =>
        match GetValidatorInfo keccak state validator with
        | (_, some _) => (acc.1, acc.2.set validator 0)
        | (info, none) => (acc.1 + info.BGTDelegated, acc.2.set validator info.BGTDelegated))
      (0, []) [a, b, c] = (23, [(a, 5), (b, 9), (c, 9)]) := by
    simp only [List.foldl_cons, List.foldl_nil, step, ha, hb, hc]
    simp [DelegationMap.set, hab, hac, hbc]
  constructor
  · simp only [SelectValidator, hfold]
    simp [DelegationMap.get]
  · simp only [SelectValidator, hfold]
    simp [DelegationMap.get]

theorem select_depends_on_map_order_witness :
    addrOf 10 ≠ addrOf 11 ∧ addrOf 10 ≠ addrOf 12 ∧ addrOf 11 ≠ addrOf 12 ∧
    (GetValidatorInfo padHash (stakes599 padHash) (addrOf 10)).1.BGTDelegated = 5 ∧
    (GetValidatorInfo padHash (stakes599 padHash) (addrOf 11)).1.BGTDelegated = 9 ∧
    (GetValidatorInfo padHash (stakes599 padHash) (addrOf 12)).1.BGTDelegated = 9 ∧
    SelectValidator padHash id (stakes599 padHash) [addrOf 10, addrOf 11, addrOf 12] =
      (addrOf 11, none) ∧
    SelectValidator padHash List.reverse (stakes599 padHash)
      [addrOf 10, addrOf 11, addrOf 12] = (addrOf 12, none) :=
  ⟨by decide, by decide, by decide, by decide, by decide, by decide,
    select_depends_on_map_order padHash (stakes599 padHash) (addrOf 10) (addrOf 11) (addrOf 12)
      (by decide) (by decide) (by decide) (by decide) (by decide) (by decide)⟩

/-! ## Selection: the two loops -/

theorem SelectValidator_nil (keccak : List Byte → Hash) (rangeOrder : DelegationMap → DelegationMap)
    (state : StateDB) :
    SelectValidator keccak rangeOrder state [] = (zeroAddress, some Error.noValidatorsAvailable) :=
  rfl

theorem SelectValidator_cons (keccak : List Byte → Hash)
    (rangeOrder : DelegationMap → DelegationMap) (state : StateDB) (first : Address)
    (rest : List Address) :
    SelectValidator keccak rangeOrder state (first :: rest) =
      if (sumLoop keccak state (first :: rest) (0, [])).1 = 0 then (first, none)
      else
        ((maxLoop (rangeOrder (sumLoop keccak state (first :: rest) (0, [])).2)
          (first, (sumLoop keccak state (first :: rest) (0, [])).2.get first)).1, none) :=
  rfl

theorem sumLoop_cons (keccak : List Byte → Hash) (state : StateDB) (v : Address)
    (l : List Address) (acc : Int × DelegationMap) :
    sumLoop keccak state (v :: l) acc =
      sumLoop keccak state l
        (acc.1 + delegatedStake keccak state v, acc.2.set v (delegatedStake keccak state v)) :=
  rfl

theorem sumLoop_fst (keccak : List Byte → Hash) (state : StateDB) (l : List Address)
    (acc : Int × DelegationMap) :
    (sumLoop keccak state l acc).1 = acc.1 + (l.map (delegatedStake keccak state)).sum := by
  induction l generalizing acc with
  | nil => simp [sumLoop]
  | cons v l ih =>
    rw [sumLoop_cons, ih]
    simp only [List.map_cons, List.sum_cons]
    ring

theorem mem_set_self (m : DelegationMap) (k : Address) (v : Int) : (k, v) ∈ m.set k v := by
  unfold DelegationMap.set
  split
  · next h =>
    rw [List.any_eq_true] at h
    obtain ⟨e, he, hk⟩ := h
    rw [List.mem_map]
    exact ⟨e, he, by simp at hk; simp [hk]⟩
  · simp

theorem mem_set_of_ne (m : DelegationMap) (k : Address) (v : Int) (e : Address × Int)
    (he : e ∈ m) (hne : e.1 ≠ k) : e ∈ m.set k v := by
  unfold DelegationMap.set
  split
  · rw [List.mem_map]
    exact ⟨e, he, by simp [hne]⟩
  · simp [he]

theorem mem_of_mem_set (m : DelegationMap) (k : Address) (v : Int) (e : Address × Int)
    (he : e ∈ m.set k v) : e = (k, v) ∨ e ∈ m := by
  unfold DelegationMap.set at he
  split at he
  · rw [List.mem_map] at he
    obtain ⟨e0, he0, heq⟩ := he
    by_cases hk : e0.1 = k
    · left; simp [hk] at heq; exact heq.symm
    · right; simp [hk] at heq; rw [← heq]; exact he0
  · rw [List.mem_append, List.mem_singleton] at he
    tauto

/-- Every entry of the map built by the first loop is an entry of the starting map or the
pair of a candidate and its delegated stake. -/
theorem sumLoop_entries (keccak : List Byte → Hash) (state : StateDB) (l : List Address)
    (acc : Int × DelegationMap) (e : Address × Int)
    (he : e ∈ (sumLoop keccak state l acc).2) :
    e ∈ acc.2 ∨ (e.1 ∈ l ∧ e.2 = delegatedStake keccak state e.1) := by
  induction l generalizing acc with
  | nil => left; exact he
  | cons v l ih =>
    rw [sumLoop_cons] at he
    rcases ih _ he with h | ⟨h1, h2⟩
    · rcases mem_of_mem_set _ _ _ _ h with h | h
      · right; subst h; simp
      · left; exact h
    · right; exact ⟨List.mem_cons_of_mem _ h1, h2⟩

theorem sumLoop_keeps (keccak : List Byte → Hash) (state : StateDB) (l : List Address)
    (acc : Int × DelegationMap) (v : Address)
    (hv : (v, delegatedStake keccak state v) ∈ acc.2) :
    (v, delegatedStake keccak state v) ∈ (sumLoop keccak state l acc).2 := by
  induction l generalizing acc with
  | nil => exact hv
  | cons w l ih =>
    rw [sumLoop_cons]
    apply ih
    by_cases hw : v = w
    · subst hw; exact mem_set_self _ _ _
    · exact mem_set_of_ne _ _ _ _ hv hw

/-- Every candidate is a key of the map built by the first loop, with its delegated stake. -/
theorem sumLoop_covers (keccak : List Byte → Hash) (state : StateDB) (l : List Address)
    (acc : Int × DelegationMap) (v : Address) (hv : v ∈ l) :
    (v, delegatedStake keccak state v) ∈ (sumLoop keccak state l acc).2 := by
  induction l generalizing acc with
  | nil => simp at hv
  | cons w l ih =>
    rw [sumLoop_cons]
    rcases List.mem_cons.mp hv with h | h
    · subst h
      exact sumLoop_keeps keccak state l _ v (mem_set_self _ _ _)
    · exact ih _ h

theorem maxLoop_cons (e : Address × Int) (l : DelegationMap) (acc : Address × Int) :
    maxLoop (e :: l) acc = maxLoop l (if e.2 > acc.2 then (e.1, e.2) else acc) := rfl

/-- The last loop ends on the start value or on an entry, and on a maximum of both. -/
theorem maxLoop_spec (l : DelegationMap) (acc : Address × Int) :
    (maxLoop l acc = acc ∨ maxLoop l acc ∈ l) ∧ acc.2 ≤ (maxLoop l acc).2 ∧
      ∀ e ∈ l, e.2 ≤ (maxLoop l acc).2 := by
  induction l generalizing acc with
  | nil => simp [maxLoop]
  | cons e l ih =>
    rw [maxLoop_cons]
    obtain ⟨h1, h2, h3⟩ := ih (if e.2 > acc.2 then (e.1, e.2) else acc)
    by_cases hgt : e.2 > acc.2
    · rw [if_pos hgt] at h1 h2 h3 ⊢
      refine ⟨?_, ?_, ?_⟩
      · right
        rcases h1 with h | h
        · rw [h]; exact List.mem_cons_self _ _
        · exact List.mem_cons_of_mem _ h
      · simp only at h2; omega
      · intro x hx
        rcases List.mem_cons.mp hx with h | h
        · subst h; exact h2
        · exact h3 x h
    · rw [if_neg hgt] at h1 h2 h3 ⊢
      refine ⟨?_, h2, ?_⟩
      · rcases h1 with h | h
        · left; exact h
        · right; exact List.mem_cons_of_mem _ h
      · intro x hx
        rcases List.mem_cons.mp hx with h | h
        · subst h; omega
        · exact h3 x h

theorem get_of_entries (keccak : List Byte → Hash) (state : StateDB) (m : DelegationMap)
    (k : Address) (hm : ∀ e ∈ m, e.2 = delegatedStake keccak state e.1)
    (hk : (k, delegatedStake keccak state k) ∈ m) :
    m.get k = delegatedStake keccak state k := by
  unfold DelegationMap.get
  cases hf : m.find? (fun e => e.1 = k) with
  | none =>
    have := List.find?_eq_none.mp hf _ hk
    simp at this
  | some e =>
    have hmem := List.mem_of_find?_eq_some hf
    have hp := List.find?_some hf
    simp only [decide_eq_true_eq] at hp
    simp only
    rw [hm e hmem, hp]

theorem delegatedStake_nonneg (keccak : List Byte → Hash) (state : StateDB) (v : Address) :
    0 ≤ delegatedStake keccak state v := BGTDelegated_nonneg keccak state v

theorem sumLoop_total (keccak : List Byte → Hash) (state : StateDB) (l : List Address) :
    (sumLoop keccak state l (0, [])).1 = (l.map (delegatedStake keccak state)).sum := by
  rw [sumLoop_fst]
  simp

theorem stake_le_sum (keccak : List Byte → Hash) (state : StateDB) (l : List Address)
    (v : Address) (hv : v ∈ l) :
    delegatedStake keccak state v ≤ (l.map (delegatedStake keccak state)).sum := by
  apply List.single_le_sum
  · intro x hx
    obtain ⟨w, _, hw⟩ := List.mem_map.mp hx
    rw [← hw]
    exact delegatedStake_nonneg keccak state w
  · exact List.mem_map_of_mem _ hv

/-- What `SelectValidator` returns on a non-empty sequence, when the last loop visits every
entry of the map exactly once. -/
theorem SelectValidator_maximal (keccak : List Byte → Hash)
    (rangeOrder : DelegationMap → DelegationMap) (state : StateDB) (first : Address)
    (rest : List Address) (hperm : ∀ m, (rangeOrder m).Perm m) :
    (SelectValidator keccak rangeOrder state (first :: rest)).2 = none ∧
    (SelectValidator keccak rangeOrder state (first :: rest)).1 ∈ first :: rest ∧
    ∀ v ∈ first :: rest,
      delegatedStake keccak state v ≤
        delegatedStake keccak state
          (SelectValidator keccak rangeOrder state (first :: rest)).1 := by
  rw [SelectValidator_cons]
  by_cases h0 : (sumLoop keccak state (first :: rest) (0, [])).1 = 0
  · rw [if_pos h0]
    refine ⟨rfl, List.mem_cons_self _ _, ?_⟩
    intro v hv
    have h1 := stake_le_sum keccak state (first :: rest) v hv
    rw [← sumLoop_total, h0] at h1
    have h2 := delegatedStake_nonneg keccak state first
    exact le_trans h1 h2
  · rw [if_neg h0]
    have hentries : ∀ e ∈ (sumLoop keccak state (first :: rest) (0, [])).2,
        e.1 ∈ first :: rest ∧ e.2 = delegatedStake keccak state e.1 := by
      intro e he
      rcases sumLoop_entries keccak state _ _ e he with h | h
      · simp at h
      · exact h
    have hfirst := sumLoop_covers keccak state (first :: rest) (0, []) first
      (List.mem_cons_self _ _)
    have hget := get_of_entries keccak state _ first (fun e he => (hentries e he).2) hfirst
    rw [hget]
    obtain ⟨h1, h2, h3⟩ := maxLoop_spec
      (rangeOrder (sumLoop keccak state (first :: rest) (0, [])).2)
      (first, delegatedStake keccak state first)
    have hsel : (maxLoop (rangeOrder (sumLoop keccak state (first :: rest) (0, [])).2)
          (first, delegatedStake keccak state first)).1 ∈ first :: rest ∧
        (maxLoop (rangeOrder (sumLoop keccak state (first :: rest) (0, [])).2)
          (first, delegatedStake keccak state first)).2 =
        delegatedStake keccak state
          (maxLoop (rangeOrder (sumLoop keccak state (first :: rest) (0, [])).2)
            (first, delegatedStake keccak state first)).1 := by
      rcases h1 with h | h
      · rw [h]
        exact ⟨List.mem_cons_self _ _, rfl⟩
      · exact hentries _ ((hperm _).mem_iff.mp h)
    refine ⟨rfl, hsel.1, ?_⟩
    intro v hv
    have hv2 := sumLoop_covers keccak state (first :: rest) (0, []) v hv
    have hv3 := h3 _ ((hperm _).mem_iff.mpr hv2)
    simp only at hv3
    rw [← hsel.2]
    exact hv3

/-- C11: on a non-empty candidate sequence `SelectValidator` returns no error and a
candidate of the sequence whose delegated stake, as `GetValidatorInfo` reads it, is at least
that of every candidate; `rangeOrder` is any order that visits each map entry once. -/
theorem select_returns_maximal_member (keccak : List Byte → Hash)
    (rangeOrder : DelegationMap → DelegationMap) (state : StateDB) (validators : List Address)
    (hne : validators ≠ []) (hperm : ∀ m, (rangeOrder m).Perm m) :
    (SelectValidator keccak rangeOrder state validators).2 = none ∧
    (SelectValidator keccak rangeOrder state validators).1 ∈ validators ∧
    ∀ v ∈ validators,
      (GetValidatorInfo keccak state v).1.BGTDelegated ≤
        (GetValidatorInfo keccak state
          (SelectValidator keccak rangeOrder state validators).1).1.BGTDelegated := by
  cases validators with
  | nil => exact absurd rfl hne
  | cons first rest => exact SelectValidator_maximal keccak rangeOrder state first rest hperm

theorem select_returns_maximal_member_witness :
    [addrOf 10, addrOf 11, addrOf 12] ≠ [] ∧
    (SelectValidator padHash List.reverse (stakes599 padHash)
      [addrOf 10, addrOf 11, addrOf 12]).2 = none ∧
    (SelectValidator padHash List.reverse (stakes599 padHash)
      [addrOf 10, addrOf 11, addrOf 12]).1 ∈ [addrOf 10, addrOf 11, addrOf 12] ∧
    ∀ v ∈ [addrOf 10, addrOf 11, addrOf 12],
      (GetValidatorInfo padHash (stakes599 padHash) v).1.BGTDelegated ≤
        (GetValidatorInfo padHash (stakes599 padHash)
          (SelectValidator padHash List.reverse (stakes599 padHash)
            [addrOf 10, addrOf 11, addrOf 12]).1).1.BGTDelegated :=
  ⟨by decide, select_returns_maximal_member padHash List.reverse (stakes599 padHash)
    [addrOf 10, addrOf 11, addrOf 12] (by decide) (fun m => List.reverse_perm m)⟩

theorem SelectValidator_of_total_zero (keccak : List Byte → Hash)
    (rangeOrder : DelegationMap → DelegationMap) (state : StateDB) (first : Address)
    (rest : List Address)
    (hzero : ∀ v ∈ first :: rest, delegatedStake keccak state v = 0) :
    SelectValidator keccak rangeOrder state (first :: rest) = (first, none) := by
  rw [SelectValidator_cons, if_pos]
  rw [sumLoop_total]
  apply List.sum_eq_zero
  intro x hx
  obtain ⟨w, hw, hxw⟩ := List.mem_map.mp hx
  rw [← hxw]
  exact hzero w hw

/-- C12: on a non-empty candidate sequence in which every candidate has delegated stake
zero, `SelectValidator` returns the first candidate and no error, whatever the order of the
map. -/
theorem select_all_zero_returns_first (keccak : List Byte → Hash)
    (rangeOrder : DelegationMap → DelegationMap) (state : StateDB) (first : Address)
    (rest : List Address)
    (hzero : ∀ v ∈ first :: rest, (GetValidatorInfo keccak state v).1.BGTDelegated = 0) :
    SelectValidator keccak rangeOrder state (first :: rest) = (first, none) :=
  SelectValidator_of_total_zero keccak rangeOrder state first rest hzero

theorem select_all_zero_returns_first_witness :
    (∀ v ∈ [addrOf 2, addrOf 1],
      (GetValidatorInfo padHash emptyState v).1.BGTDelegated = 0) ∧
    SelectValidator padHash List.reverse emptyState [addrOf 2, addrOf 1] = (addrOf 2, none) :=
  ⟨by decide, select_all_zero_returns_first padHash List.reverse emptyState (addrOf 2)
    [addrOf 1] (by decide)⟩

/-- C13: `SelectValidator` returns an error exactly when the candidate sequence is empty,
for every state and every order of the map. -/
theorem select_error_iff_empty (keccak : List Byte → Hash)
    (rangeOrder : DelegationMap → DelegationMap) (state : StateDB) (validators : List Address) :
    (SelectValidator keccak rangeOrder state validators).2 ≠ none ↔ validators = [] := by
  cases validators with
  | nil => simp [SelectValidator_nil]
  | cons first rest =>
    rw [SelectValidator_cons]
    split <;> simp

/-! ## Total delegation, absent records, slot keys -/

theorem GetTotalBGTDelegation_foldl (keccak : List Byte → Hash) (state : StateDB)
    (l : List Address) (total : Int) :
    l.foldl
        (fun (total : Int) validator =>
          match GetValidatorInfo keccak state validator with
          | (_, some _) => total
          | (info, none) => total + info.BGTDelegated)
        total =
      total + (l.map (fun v => (GetValidatorInfo keccak state v).1.BGTDelegated)).sum := by
  induction l generalizing total with
  | nil => simp
  | cons v l ih =>
    rw [List.foldl_cons, ih]
    simp only [List.map_cons, List.sum_cons]
    rw [← add_assoc]
    rfl

/-- C14: `GetTotalBGTDelegation` returns the sum, over the list, of the delegated stake that
`GetValidatorInfo` reads; an identity without stored record contributes zero, and the empty
list gives zero. -/
theorem total_delegation_is_sum (keccak : List Byte → Hash) (state : StateDB)
    (validators : List Address) :
    GetTotalBGTDelegation keccak state validators =
      (validators.map (fun v => (GetValidatorInfo keccak state v).1.BGTDelegated)).sum ∧
    (∀ v, NoRecord keccak state v → (GetValidatorInfo keccak state v).1.BGTDelegated = 0) ∧
    GetTotalBGTDelegation keccak state [] = 0 := by
  refine ⟨?_, fun v hv => BGTDelegated_of_noRecord keccak state v hv, rfl⟩
  unfold GetTotalBGTDelegation
  rw [GetTotalBGTDelegation_foldl]
  simp

set_option maxRecDepth 100000 in
theorem total_delegation_is_sum_witness :
    NoRecord padHash (stakes599 padHash) (addrOf 1) ∧
    (GetValidatorInfo padHash (stakes599 padHash) (addrOf 1)).1.BGTDelegated = 0 ∧
    GetTotalBGTDelegation padHash (stakes599 padHash)
      [addrOf 10, addrOf 1, addrOf 11, addrOf 12] = 23 :=
  ⟨by decide,
    (total_delegation_is_sum padHash (stakes599 padHash) []).2.1 (addrOf 1) (by decide),
    by decide⟩

theorem get_of_noRecord (keccak : List Byte → Hash) (state : StateDB) (validator : Address)
    (hno : NoRecord keccak state validator) :
    (GetValidatorInfo keccak state validator).1 =
      { Address := validator, BGTDelegated := 0, LiquidityStake := 0, TotalRewards := 0 } := by
  obtain ⟨h0, h1, h2⟩ := hno
  simp only [StateDB.GetState] at h0 h1 h2
  rw [GetValidatorInfo_fields, h0, h1, h2]
  simp only [bigSetBytes_eq, beNat_zeroHash]
  rfl

/-- C15: `GetValidatorInfo` returns no error for every state and identity, and it returns
the all-zero record for an identity whose three slots hold the zero word. -/
theorem get_never_fails (keccak : List Byte → Hash) (state : StateDB) (validator : Address) :
    (GetValidatorInfo keccak state validator).2 = none ∧
    (NoRecord keccak state validator →
      (GetValidatorInfo keccak state validator).1 =
        { Address := validator, BGTDelegated := 0, LiquidityStake := 0, TotalRewards := 0 }) :=
  ⟨rfl, get_of_noRecord keccak state validator⟩

theorem get_never_fails_witness :
    NoRecord padHash emptyState (addrOf 1) ∧
    (GetValidatorInfo padHash emptyState (addrOf 1)).1 =
      { Address := addrOf 1, BGTDelegated := 0, LiquidityStake := 0, TotalRewards := 0 } :=
  ⟨by decide, (get_never_fails padHash emptyState (addrOf 1)).2 (by decide)⟩

theorem slotKey_inj (a b : Address) (i j : Nat) (hi : i < 256) (hj : j < 256)
    (h : slotKey a i = slotKey b j) : a = b ∧ i = j := by
  unfold slotKey at h
  have hlen : a.val.length = b.val.length := by rw [a.property, b.property]
  obtain ⟨h1, h2⟩ := List.append_inj h hlen
  refine ⟨Subtype.ext h1, ?_⟩
  have h3 := congrArg Fin.val (List.singleton_inj.mp h2)
  simp only at h3
  rw [Nat.mod_eq_of_lt hi, Nat.mod_eq_of_lt hj] at h3
  exact h3

/-- C16: the byte string that `getValidatorSlot` hashes is injective over the pairs of a
validator and a field index in {0, 1, 2}: two different pairs give different hash inputs. -/
theorem slot_key_injective (a b : Address) (i j : Nat) (hi : i < 3) (hj : j < 3)
    (hne : (a, i) ≠ (b, j)) : slotKey a i ≠ slotKey b j := by
  intro h
  obtain ⟨h1, h2⟩ := slotKey_inj a b i j (by omega) (by omega) h
  exact hne (by rw [h1, h2])

theorem slot_key_injective_witness :
    (1 : Nat) < 3 ∧ (2 : Nat) < 3 ∧ (addrOf 1, 1) ≠ (addrOf 1, 2) ∧
    (addrOf 1, 1) ≠ (addrOf 2, 1) ∧
    slotKey (addrOf 1) 1 ≠ slotKey (addrOf 1) 2 ∧ slotKey (addrOf 1) 1 ≠ slotKey (addrOf 2) 1 :=
  ⟨by decide, by decide, by decide, by decide,
    slot_key_injective (addrOf 1) (addrOf 1) 1 2 (by decide) (by decide) (by decide),
    slot_key_injective (addrOf 1) (addrOf 2) 1 1 (by decide) (by decide) (by decide)⟩

/-! ## Re-writing a stored record -/

theorem natBytesLE_zero (fuel : Nat) : natBytesLE fuel 0 = [] := by
  cases fuel <;> simp [natBytesLE]

theorem beNat_cons (h : Byte) (tl : List Byte) :
    beNat (h :: tl) = h.val * 256 ^ tl.length + beNat tl := by
  have := beNat_append [h] tl
  simpa [beNat] using this

theorem beNat_snoc (t : List Byte) (b : Byte) : beNat (t ++ [b]) = beNat t * 256 + b.val := by
  rw [beNat_append]
  simp [beNat]

theorem beNat_pos (l : List Byte) (hne : l ≠ []) (hl : NoLeadingZero l) : 0 < beNat l := by
  cases l with
  | nil => exact absurd rfl hne
  | cons h tl =>
    rw [beNat_cons]
    have h0 : h ≠ 0 := hl h rfl
    have h1 : 0 < h.val := Nat.pos_of_ne_zero (fun hz => h0 (Fin.ext hz))
    have h2 : 0 < 256 ^ tl.length := Nat.pow_pos (by decide)
    have := Nat.mul_pos h1 h2
    omega

/-- The bytes of the number that a string without leading zero denotes are the string. -/
theorem natBytesLE_beNat (l : List Byte) (hl : NoLeadingZero l) :
    ∀ fuel, beNat l ≤ fuel → (natBytesLE fuel (beNat l)).reverse = l := by
  induction l using List.reverseRecOn with
  | nil =>
    intro fuel _
    show (natBytesLE fuel 0).reverse = []
    rw [natBytesLE_zero]
    rfl
  | append_singleton t b ih =>
    intro fuel hfuel
    have hpos := beNat_pos (t ++ [b]) (by simp) hl
    have ht : NoLeadingZero t := by
      intro c hc
      apply hl c
      cases t with
      | nil => simp at hc
      | cons x xs => simpa using hc
    rw [beNat_snoc] at hfuel hpos ⊢
    cases fuel with
    | zero => omega
    | succ f =>
      have hb := b.isLt
      unfold natBytesLE
      rw [if_neg (by omega)]
      have hdiv : (beNat t * 256 + b.val) / 256 = beNat t := by omega
      have hmod : (beNat t * 256 + b.val) % 256 = b.val := by omega
      rw [List.reverse_cons]
      simp only [hdiv, hmod]
      rw [ih ht f (by omega)]

theorem bigBytes_noLeadingZero (x : Int) : NoLeadingZero (bigBytes x) := by
  intro b hb hz
  cases hbs : bigBytes x with
  | nil => rw [hbs] at hb; simp at hb
  | cons h tl =>
    rw [hbs] at hb
    simp only [List.head?_cons, Option.some.injEq] at hb
    have hval : beNat (bigBytes x) = beNat tl := by
      rw [hbs, beNat_cons, hb, hz]
      simp
    rw [beNat_bigBytes] at hval
    have hlt : x.natAbs < 256 ^ tl.length := by rw [hval]; exact beNat_lt tl
    have hlen := bigBytes_length_le x tl.length hlt
    rw [hbs] at hlen
    simp at hlen

/-- A written word is the zero word or has no leading zero byte. -/
theorem hashFromBig_normal (x : Int) :
    hashFromBig x = zeroHash ∨ NoLeadingZero (hashFromBig x).val := by
  have hA := bigBytes_noLeadingZero x
  cases hbs : bigBytes x with
  | nil =>
    left
    apply Subtype.ext
    simp [hashFromBig, copyBytes, hbs, zeroHash]
  | cons h tl =>
    right
    intro b hb
    rw [hbs] at hA
    apply hA b
    simpa [hashFromBig, copyBytes, hbs, zeroHash] using hb

theorem hashFromBig_bigSetBytes (w : Hash) (hw : NoLeadingZero w.val) :
    hashFromBig (bigSetBytes w.val) = w := by
  apply Subtype.ext
  have hbytes : bigBytes (bigSetBytes w.val) = w.val := by
    unfold bigBytes
    rw [bigSetBytes_eq, Int.natAbs_ofNat]
    exact natBytesLE_beNat w.val hw _ (Nat.le_refl _)
  simp only [hashFromBig, copyBytes, hbytes, zeroHash, List.length_replicate]
  rw [List.take_of_length_le (by rw [w.property]), w.property]
  simp

set_option maxRecDepth 100000 in
theorem hashFromBig_bigSetBytes_zero : hashFromBig (bigSetBytes zeroHash.val) = zeroHash := by
  decide

/-- Writing the value read from a written word gives the same word. -/
theorem hashFromBig_readBack (x : Int) :
    hashFromBig (bigSetBytes (hashFromBig x).val) = hashFromBig x := by
  rcases hashFromBig_normal x with h | h
  · rw [h]; exact hashFromBig_bigSetBytes_zero
  · exact hashFromBig_bigSetBytes _ h

theorem SetState_same (s : StateDB) (addr : Address) (key : Hash) :
    s.SetState addr key (s.storage addr key) = s := by
  cases s with
  | mk storage balance =>
    simp only [StateDB.SetState, StateDB.mk.injEq, and_true]
    funext a k
    by_cases h : a = addr ∧ k = key
    · rw [if_pos h, h.1, h.2]
    · rw [if_neg h]

/-- After `SetValidatorInfo` each of the three slots holds a word written from an integer. -/
theorem SetValidatorInfo_slot_written (keccak : List Byte → Hash) (state : StateDB)
    (info : ValidatorInfo) (i : Nat) (hi : i < 3) :
    ∃ x, (SetValidatorInfo keccak state info).1.storage contractAddr
      (getValidatorSlot keccak info.Address i) = hashFromBig x := by
  simp only [SetValidatorInfo, StateDB.SetState, true_and]
  have : i = 0 ∨ i = 1 ∨ i = 2 := by omega
  rcases this with h | h | h <;> subst h
  · split
    · exact ⟨_, rfl⟩
    · split
      · exact ⟨_, rfl⟩
      · exact ⟨info.BGTDelegated, by simp⟩
  · split
    · exact ⟨_, rfl⟩
    · exact ⟨info.LiquidityStake, by simp⟩
  · exact ⟨info.TotalRewards, by simp⟩

theorem SetValidatorInfo_of_get (keccak : List Byte → Hash) (s : StateDB) (validator : Address)
    (hw : ∀ i, i < 3 → ∃ x, s.storage contractAddr (getValidatorSlot keccak validator i) =
      hashFromBig x) :
    (SetValidatorInfo keccak s (GetValidatorInfo keccak s validator).1).1 = s := by
  have key : ∀ i, i < 3 →
      hashFromBig (bigSetBytes (s.storage contractAddr (getValidatorSlot keccak validator i)).val) =
        s.storage contractAddr (getValidatorSlot keccak validator i) := by
    intro i hi
    obtain ⟨x, hx⟩ := hw i hi
    rw [hx]
    exact hashFromBig_readBack x
  rw [GetValidatorInfo_fields]
  simp only [SetValidatorInfo]
  rw [key 0 (by decide), SetState_same, key 1 (by decide), SetState_same, key 2 (by decide),
    SetState_same]

/-- C27: when `r'` is the record that `GetValidatorInfo` returns after `SetValidatorInfo(r)`,
for any state, identity, hash function and integer fields of `r`, `SetValidatorInfo(r')` returns
the state as it was, and `GetValidatorInfo` returns `r'` again. -/
theorem set_after_get_idempotent (keccak : List Byte → Hash) (state : StateDB)
    (info : ValidatorInfo) :
    (SetValidatorInfo keccak (SetValidatorInfo keccak state info).1
      (GetValidatorInfo keccak (SetValidatorInfo keccak state info).1 info.Address).1).1 =
      (SetValidatorInfo keccak state info).1 ∧
    (GetValidatorInfo keccak
      (SetValidatorInfo keccak (SetValidatorInfo keccak state info).1
        (GetValidatorInfo keccak (SetValidatorInfo keccak state info).1 info.Address).1).1
      info.Address).1 =
      (GetValidatorInfo keccak (SetValidatorInfo keccak state info).1 info.Address).1 := by
  have h := SetValidatorInfo_of_get keccak (SetValidatorInfo keccak state info).1 info.Address
    (fun i hi => SetValidatorInfo_slot_written keccak state info i hi)
  exact ⟨h, by rw [h]⟩

end Poapol

/-! # Hybrid engine: the order of the rules -/

namespace Hybrid

open Poapol

theorem VerifyHeader_eq_firstViolation (env : Env) (header : Header) :
    VerifyHeader env header = firstViolation env header := by
  unfold VerifyHeader firstViolation rulesInOrder
  cases hd : header.Difficulty with
  | none => simp
  | some d =>
    by_cases h12 : d = 1 ∨ d = 2
    · have hne : ¬ (d ≠ 1 ∧ d ≠ 2) := by tauto
      cases hc : env.cliqueVerifyHeader header with
      | some e => simp [h12, hne]
      | none =>
        cases hp : env.getHeader header.ParentHash (parentNumber header.Number) with
        | none => simp [h12, hne]
        | some parent =>
          simp only [h12, hne, if_true, if_false]
          by_cases hu : header.UncleHash = env.emptyUncleHash
          swap
          · simp [hu]
          by_cases ht : parent.Time < header.Time
          swap
          · simp [hu, ht, not_lt.mp ht]
          by_cases hg : header.GasLimit ≤ env.maxGasLimit
          swap
          · simp [hu, ht, hg, not_le.mp hg, not_le.mpr ht]
          by_cases hgu : header.GasUsed ≤ header.GasLimit
          swap
          · simp [hu, ht, hg, hgu, not_le.mp hgu, not_le.mpr ht, not_lt.mpr hg]
          by_cases hn : header.Number = parent.Number + 1
          swap
          · have hn2 : header.Number - parent.Number ≠ 1 := by omega
            simp [hu, ht, hg, hgu, hn, hn2, not_le.mpr ht, not_lt.mpr hg, not_lt.mpr hgu]
          have hn2 : ¬ (header.Number - parent.Number ≠ 1) := by omega
          simp only [hu, ht, hg, hgu, hn2, not_le.mpr ht, not_lt.mpr hg, not_lt.mpr hgu,
            ne_eq, not_true_eq_false, if_false, if_true]
          have hfork :
              (if env.isShanghai header.Number header.Time = true ∧
                  header.WithdrawalsHash = none then
                some (VerifyError.invalidHybrid Reason.withdrawalsHashRequired)
              else if env.isShanghai header.Number header.Time = false ∧
                  ¬ header.WithdrawalsHash = none then
                some (VerifyError.invalidHybrid Reason.withdrawalsHashNotAllowed)
              else if env.isCancun header.Number header.Time = false then
                match header.ExcessBlobGas, header.BlobGasUsed, header.ParentBeaconRoot with
                | some excess, _, _ =>
                  some (VerifyError.invalidHybrid (Reason.invalidExcessBlobGas excess))
                | none, some used, _ =>
                  some (VerifyError.invalidHybrid (Reason.invalidBlobGasUsed used))
                | none, none, some root =>
                  some (VerifyError.invalidHybrid (Reason.invalidParentBeaconRoot root))
                | none, none, none => none
              else
                match header.ParentBeaconRoot with
                | none => some (VerifyError.invalidHybrid Reason.missingBeaconRoot)
                | some _ =>
                  match env.verifyEIP4844Header parent header with
                  | some err => some (VerifyError.eip4844ValidationFailed err)
                  | none => none) =
              List.findSome? id
                [ (match env.isShanghai header.Number header.Time, header.WithdrawalsHash with
                    | true, none =>
                      some (VerifyError.invalidHybrid Reason.withdrawalsHashRequired)
                    | false, some _ =>
                      some (VerifyError.invalidHybrid Reason.withdrawalsHashNotAllowed)
                    | _, _ => none),
                  (if env.isCancun header.Number header.Time = true then
                    match header.ParentBeaconRoot with
                    | none => some (VerifyError.invalidHybrid Reason.missingBeaconRoot)
                    | some _ =>
                      (env.verifyEIP4844Header parent header).map
                        VerifyError.eip4844ValidationFailed
                  else
                    match header.ExcessBlobGas, header.BlobGasUsed, header.ParentBeaconRoot with
                    | some excess, _, _ =>
                      some (VerifyError.invalidHybrid (Reason.invalidExcessBlobGas excess))
                    | none, some used, _ =>
                      some (VerifyError.invalidHybrid (Reason.invalidBlobGasUsed used))
                    | none, none, some root =>
                      some (VerifyError.invalidHybrid (Reason.invalidParentBeaconRoot root))
                    | none, none, none => none) ] := by
            cases hs : env.isShanghai header.Number header.Time <;>
              cases hw : header.WithdrawalsHash <;>
              cases hcc : env.isCancun header.Number header.Time <;>
              cases he : header.ExcessBlobGas <;> cases hbu : header.BlobGasUsed <;>
              cases hr : header.ParentBeaconRoot <;>
              simp <;>
              cases h4 : env.verifyEIP4844Header parent header <;> simp
          cases hl : env.isLondon header.Number with
          | false =>
            simp only [Bool.false_eq_true, if_false]
            rw [hfork]
            simp [ht, hn, hl]
          | true =>
            cases hb : header.BaseFee with
            | none => simp [ht, hn, hl]
            | some fee =>
              cases h1 : env.verifyEIP1559Header parent header with
              | some e => simp [ht, hn, hl, h1]
              | none =>
                simp only [if_true, reduceCtorEq, if_false]
                rw [hfork]
                simp [ht, hn, hl, h1]
    · have hne : d ≠ 1 ∧ d ≠ 2 := by tauto
      simp [h12, hne]

theorem VerifyHeader_of_violation (env : Env) (header : Header) (r : Option VerifyError)
    (hr : r ∈ rulesInOrder env header) (hsome : r ≠ none) :
    VerifyHeader env header ≠ none := by
  rw [VerifyHeader_eq_firstViolation]
  unfold firstViolation
  intro hnone
  rw [List.findSome?_eq_none_iff] at hnone
  exact hsome (hnone r hr)

theorem VerifyHeader_difficulty_none (env : Env) (header : Header)
    (h : header.Difficulty = none) :
    VerifyHeader env header = some VerifyError.errInvalidHybrid := by
  unfold VerifyHeader
  rw [h]

theorem VerifyHeader_difficulty_other (env : Env) (header : Header) (d : Int)
    (h : header.Difficulty = some d) (h1 : d ≠ 1) (h2 : d ≠ 2) :
    VerifyHeader env header =
      some (VerifyError.invalidHybrid (Reason.difficultyNotOneOrTwo d)) := by
  unfold VerifyHeader
  rw [h]
  simp only
  rw [if_pos ⟨h1, h2⟩]

/-- C17: a header without difficulty is rejected with `errInvalidHybrid`, and a header whose
difficulty is neither 1 nor 2 is rejected with an error that wraps `errInvalidHybrid`,
whatever the authority engine, the chain and the other fields are. -/
theorem verify_rejects_bad_difficulty (env : Env) (header : Header) :
    (header.Difficulty = none →
      VerifyHeader env header = some VerifyError.errInvalidHybrid) ∧
    (∀ d, header.Difficulty = some d → d ≠ 1 → d ≠ 2 →
      VerifyHeader env header =
        some (VerifyError.invalidHybrid (Reason.difficultyNotOneOrTwo d))) :=
  ⟨VerifyHeader_difficulty_none env header, VerifyHeader_difficulty_other env header⟩

theorem verify_rejects_bad_difficulty_witness :
    VerifyHeader (exampleEnv none true false false)
        { exampleHeader with Difficulty := none } = some VerifyError.errInvalidHybrid ∧
    VerifyHeader (exampleEnv none true false false)
        { exampleHeader with Difficulty := some 3 } =
      some (VerifyError.invalidHybrid (Reason.difficultyNotOneOrTwo 3)) :=
  ⟨(verify_rejects_bad_difficulty (exampleEnv none true false false)
      { exampleHeader with Difficulty := none }).1 rfl,
    (verify_rejects_bad_difficulty (exampleEnv none true false false)
      { exampleHeader with Difficulty := some 3 }).2 3 rfl (by decide) (by decide)⟩

/-- C18: a header is rejected when the withdrawals fork is not active for it and its
withdrawals hash is present, and when the fork is active and the hash is absent. -/
theorem verify_withdrawals_hash_symmetry (env : Env) (header : Header) :
    (env.isShanghai header.Number header.Time = false → header.WithdrawalsHash ≠ none →
      VerifyHeader env header ≠ none) ∧
    (env.isShanghai header.Number header.Time = true → header.WithdrawalsHash = none →
      VerifyHeader env header ≠ none) := by
  constructor
  · intro hs hw
    obtain ⟨w, hw2⟩ := Option.ne_none_iff_exists'.mp hw
    apply VerifyHeader_of_violation env header
      (some (VerifyError.invalidHybrid Reason.withdrawalsHashNotAllowed))
    · simp [rulesInOrder, hs, hw2]
    · simp
  · intro hs hw
    apply VerifyHeader_of_violation env header
      (some (VerifyError.invalidHybrid Reason.withdrawalsHashRequired))
    · simp [rulesInOrder, hs, hw]
    · simp

theorem verify_withdrawals_hash_symmetry_witness :
    VerifyHeader (exampleEnv none true false false)
        { exampleHeader with WithdrawalsHash := some zeroHash } ≠ none ∧
    VerifyHeader (exampleEnv none true true false) exampleHeader ≠ none :=
  ⟨(verify_withdrawals_hash_symmetry (exampleEnv none true false false)
      { exampleHeader with WithdrawalsHash := some zeroHash }).1 rfl (by decide),
    (verify_withdrawals_hash_symmetry (exampleEnv none true true false) exampleHeader).2
      rfl rfl⟩

theorem VerifyHeader_of_no_parent (env : Env) (header : Header)
    (hp : env.getHeader header.ParentHash (parentNumber header.Number) = none) :
    VerifyHeader env header ≠ none := by
  apply VerifyHeader_of_violation env header (some VerifyError.errUnknownAncestor)
  · simp [rulesInOrder, hp]
  · simp

/-- C19: a header is rejected when the blob-fee fork is not active for it and one of
`ExcessBlobGas`, `BlobGasUsed`, `ParentBeaconRoot` is present, and when the fork is active and
`ParentBeaconRoot` is absent. -/
theorem verify_blob_fields (env : Env) (header : Header) :
    (env.isCancun header.Number header.Time = false →
      (header.ExcessBlobGas ≠ none ∨ header.BlobGasUsed ≠ none ∨
        header.ParentBeaconRoot ≠ none) →
      VerifyHeader env header ≠ none) ∧
    (env.isCancun header.Number header.Time = true → header.ParentBeaconRoot = none →
      VerifyHeader env header ≠ none) := by
  cases hp : env.getHeader header.ParentHash (parentNumber header.Number) with
  | none =>
    exact ⟨fun _ _ => VerifyHeader_of_no_parent env header hp,
      fun _ _ => VerifyHeader_of_no_parent env header hp⟩
  | some parent =>
    constructor
    · intro hc hfields
      cases he : header.ExcessBlobGas with
      | some excess =>
        apply VerifyHeader_of_violation env header
          (some (VerifyError.invalidHybrid (Reason.invalidExcessBlobGas excess)))
        · simp [rulesInOrder, hp, hc, he]
        · simp
      | none =>
        cases hb : header.BlobGasUsed with
        | some used =>
          apply VerifyHeader_of_violation env header
            (some (VerifyError.invalidHybrid (Reason.invalidBlobGasUsed used)))
          · simp [rulesInOrder, hp, hc, he, hb]
          · simp
        | none =>
          cases hr : header.ParentBeaconRoot with
          | some root =>
            apply VerifyHeader_of_violation env header
              (some (VerifyError.invalidHybrid (Reason.invalidParentBeaconRoot root)))
            · simp [rulesInOrder, hp, hc, he, hb, hr]
            · simp
          | none =>
            rw [he, hb, hr] at hfields
            simp at hfields
    · intro hc hr
      apply VerifyHeader_of_violation env header
        (some (VerifyError.invalidHybrid Reason.missingBeaconRoot))
      · simp [rulesInOrder, hp, hc, hr]
      · simp

theorem verify_blob_fields_witness :
    VerifyHeader (exampleEnv none true false false)
        { exampleHeader with BlobGasUsed := some 0 } ≠ none ∧
    VerifyHeader (exampleEnv none true false true) exampleHeader ≠ none :=
  ⟨(verify_blob_fields (exampleEnv none true false false)
      { exampleHeader with BlobGasUsed := some 0 }).1 rfl (by decide),
    (verify_blob_fields (exampleEnv none true false true) exampleHeader).2 rfl rfl⟩

theorem VerifyHeader_authority_error (env : Env) (header : Header) (e : Error)
    (hd : header.Difficulty = some 1 ∨ header.Difficulty = some 2)
    (hc : env.cliqueVerifyHeader header = some e) :
    VerifyHeader env header = some (VerifyError.poaValidationFailed e) := by
  unfold VerifyHeader
  rcases hd with hd | hd <;> rw [hd] <;> simp [hc]

theorem VerifyHeader_unknown_ancestor (env : Env) (header : Header)
    (hd : header.Difficulty = some 1 ∨ header.Difficulty = some 2)
    (hc : env.cliqueVerifyHeader header = none)
    (hp : env.getHeader header.ParentHash (parentNumber header.Number) = none) :
    VerifyHeader env header = some VerifyError.errUnknownAncestor := by
  unfold VerifyHeader
  rcases hd with hd | hd <;> rw [hd] <;> simp [hc, hp]

/-- C20: `VerifyHeader` returns the error of the first violated rule in the order difficulty,
authority engine, parent lookup, uncle hash, timestamp, gas limit, gas used, block number,
base fee, withdrawals hash, blob fields, and `nil` when no rule is violated; with difficulty 1
or 2 an error `e` of the authority engine is returned wrapped, whatever the other fields are,
and `ErrUnknownAncestor` is returned when the engine accepts and the parent is not
resolvable. -/
theorem verify_fail_fast_order (env : Env) (header : Header) :
    VerifyHeader env header = firstViolation env header ∧
    (∀ e, (header.Difficulty = some 1 ∨ header.Difficulty = some 2) →
      env.cliqueVerifyHeader header = some e →
      VerifyHeader env header = some (VerifyError.poaValidationFailed e) ∧
      (VerifyHeader env header).bind VerifyError.unwrapCollaborator = some e) ∧
    ((header.Difficulty = some 1 ∨ header.Difficulty = some 2) →
      env.cliqueVerifyHeader header = none →
      env.getHeader header.ParentHash (parentNumber header.Number) = none →
      VerifyHeader env header = some VerifyError.errUnknownAncestor) := by
  refine ⟨VerifyHeader_eq_firstViolation env header, ?_,
    VerifyHeader_unknown_ancestor env header⟩
  intro e hd hc
  have h := VerifyHeader_authority_error env header e hd hc
  exact ⟨h, by rw [h]; rfl⟩

theorem verify_fail_fast_order_witness :
    (VerifyHeader (exampleEnv (some (Error.engine 7)) false true true)
        { exampleHeader with UncleHash := maxHash, GasUsed := 1000 } =
      some (VerifyError.poaValidationFailed (Error.engine 7)) ∧
    (VerifyHeader (exampleEnv (some (Error.engine 7)) false true true)
        { exampleHeader with UncleHash := maxHash, GasUsed := 1000 }).bind
      VerifyError.unwrapCollaborator = some (Error.engine 7)) ∧
    VerifyHeader (exampleEnv none false true true)
        { exampleHeader with UncleHash := maxHash, GasUsed := 1000 } =
      some VerifyError.errUnknownAncestor :=
  ⟨(verify_fail_fast_order (exampleEnv (some (Error.engine 7)) false true true)
      { exampleHeader with UncleHash := maxHash, GasUsed := 1000 }).2.1 (Error.engine 7)
      (Or.inr rfl) rfl,
    (verify_fail_fast_order (exampleEnv none false true true)
      { exampleHeader with UncleHash := maxHash, GasUsed := 1000 }).2.2 (Or.inr rfl) rfl rfl⟩

/-! ## Batch verification -/

theorem verifyLoop_of_no_abort (env : Env) (abortReady pickAbort : Nat → Bool)
    (h : ∀ i, abortReady i = false) (i : Nat) (headers : List Header) :
    verifyLoop env abortReady pickAbort i headers = headers.map (VerifyHeader env) := by
  induction headers generalizing i with
  | nil => rfl
  | cons header rest ih =>
    unfold verifyLoop
    rw [if_neg (by simp [h i]), ih (i + 1)]
    rfl

/-- C21: when the caller never signals on `abort`, `VerifyHeaders` sends exactly one result
for each header, and the `i`-th result sent is `VerifyHeader` of the `i`-th header. -/
theorem verify_headers_in_order (env : Env) (abortReady pickAbort : Nat → Bool)
    (headers : List Header) (h : ∀ i, abortReady i = false) :
    VerifyHeaders env abortReady pickAbort headers = headers.map (VerifyHeader env) ∧
    (VerifyHeaders env abortReady pickAbort headers).length = headers.length ∧
    ∀ i : Nat, (VerifyHeaders env abortReady pickAbort headers)[i]? =
      Option.map (VerifyHeader env) headers[i]? := by
  have hmap : VerifyHeaders env abortReady pickAbort headers =
      headers.map (VerifyHeader env) :=
    verifyLoop_of_no_abort env abortReady pickAbort h 0 headers
  refine ⟨hmap, by rw [hmap, List.length_map], ?_⟩
  intro i
  rw [hmap, List.getElem?_map]

theorem verify_headers_in_order_witness :
    VerifyHeaders (exampleEnv none true false false) (fun _ => false) (fun _ => true)
        [exampleHeader, { exampleHeader with Difficulty := none }] =
      [none, some VerifyError.errInvalidHybrid] := by
  have h := (verify_headers_in_order (exampleEnv none true false false) (fun _ => false)
    (fun _ => true) [exampleHeader, { exampleHeader with Difficulty := none }]
    (fun _ => rfl)).1
  rw [h]
  decide

/-! ## Acceptance -/

/-- The header is accepted exactly when no rule is violated. -/
theorem VerifyHeader_eq_none_iff (env : Env) (header : Header) :
    VerifyHeader env header = none ↔
      (header.Difficulty = some 1 ∨ header.Difficulty = some 2) ∧
      env.cliqueVerifyHeader header = none ∧
      ∃ parent, env.getHeader header.ParentHash (parentNumber header.Number) = some parent ∧
        header.UncleHash = env.emptyUncleHash ∧
        parent.Time < header.Time ∧
        header.GasLimit ≤ env.maxGasLimit ∧
        header.GasUsed ≤ header.GasLimit ∧
        header.Number = parent.Number + 1 ∧
        (env.isLondon header.Number = true →
          header.BaseFee ≠ none ∧ env.verifyEIP1559Header parent header = none) ∧
        (header.WithdrawalsHash ≠ none ↔ env.isShanghai header.Number header.Time = true) ∧
        (env.isCancun header.Number header.Time = true →
          header.ParentBeaconRoot ≠ none ∧ env.verifyEIP4844Header parent header = none) ∧
        (env.isCancun header.Number header.Time = false →
          header.ExcessBlobGas = none ∧ header.BlobGasUsed = none ∧
            header.ParentBeaconRoot = none) := by
  rw [VerifyHeader_eq_firstViolation, firstViolation, List.findSome?_eq_none_iff]
  simp only [rulesInOrder, List.mem_cons, List.mem_singleton, forall_eq_or_imp, forall_eq, id,
    List.not_mem_nil, false_imp_iff, implies_true, and_true]
  cases hp : env.getHeader header.ParentHash (parentNumber header.Number) with
  | none => simp
  | some parent =>
    simp only [Option.some_bind, true_and, Option.some.injEq, exists_eq_left']
    refine and_congr ?_ (and_congr ?_ (and_congr ?_ (and_congr ?_ (and_congr ?_ (and_congr ?_
      (and_congr ?_ (and_congr ?_ (and_congr ?_ ?_))))))))
    · cases hd : header.Difficulty with
      | none => simp
      | some d => by_cases h12 : d = 1 ∨ d = 2 <;> simp [h12]
    · simp
    · by_cases h : header.UncleHash = env.emptyUncleHash <;> simp [h]
    · by_cases h : parent.Time < header.Time <;> simp [h]
    · by_cases h : header.GasLimit ≤ env.maxGasLimit <;> simp [h]
    · by_cases h : header.GasUsed ≤ header.GasLimit <;> simp [h]
    · by_cases h : header.Number = parent.Number + 1 <;> simp [h]
    · cases hl : env.isLondon header.Number <;> cases hb : header.BaseFee <;> simp
    · cases hs : env.isShanghai header.Number header.Time <;>
        cases hw : header.WithdrawalsHash <;> simp
    · cases hc : env.isCancun header.Number header.Time <;>
        cases he : header.ExcessBlobGas <;> cases hb : header.BlobGasUsed <;>
        cases hr : header.ParentBeaconRoot <;> simp

/-- C25: `VerifyHeader` returns `nil` exactly when the difficulty is 1 or 2, the authority
engine accepts, the parent is resolvable, the uncle hash is the empty-uncle hash, the time is
after the parent's, the gas limit is at most the maximum, the gas used is at most the gas
limit, the number is the parent's plus one, under London the base fee is present and the
EIP-1559 check passes, the withdrawals hash is present exactly under Shanghai, under Cancun
`ParentBeaconRoot` is present and the EIP-4844 check passes, and without Cancun the three blob
fields are absent. -/
theorem verify_success_iff (env : Env) (header : Header) :
    VerifyHeader env header = none ↔
      (header.Difficulty = some 1 ∨ header.Difficulty = some 2) ∧
      env.cliqueVerifyHeader header = none ∧
      ∃ parent, env.getHeader header.ParentHash (parentNumber header.Number) = some parent ∧
        header.UncleHash = env.emptyUncleHash ∧
        parent.Time < header.Time ∧
        header.GasLimit ≤ env.maxGasLimit ∧
        header.GasUsed ≤ header.GasLimit ∧
        header.Number = parent.Number + 1 ∧
        (env.isLondon header.Number = true →
          header.BaseFee ≠ none ∧ env.verifyEIP1559Header parent header = none) ∧
        (header.WithdrawalsHash ≠ none ↔ env.isShanghai header.Number header.Time = true) ∧
        (env.isCancun header.Number header.Time = true →
          header.ParentBeaconRoot ≠ none ∧ env.verifyEIP4844Header parent header = none) ∧
        (env.isCancun header.Number header.Time = false →
          header.ExcessBlobGas = none ∧ header.BlobGasUsed = none ∧
            header.ParentBeaconRoot = none) :=
  VerifyHeader_eq_none_iff env header

theorem verify_success_iff_witness :
    VerifyHeader (exampleEnv none true false false) exampleHeader = none ∧
    VerifyHeader (exampleEnv none true true true)
      { exampleHeader with WithdrawalsHash := some zeroHash, ParentBeaconRoot := some zeroHash,
                           BlobGasUsed := some 0, ExcessBlobGas := some 0 } = none :=
  ⟨(verify_success_iff (exampleEnv none true false false) exampleHeader).2
      ⟨Or.inr rfl, rfl, exampleParent, by decide, by decide, by decide, by decide, by decide,
        by decide, by decide, by decide, by decide, by decide⟩,
    (verify_success_iff (exampleEnv none true true true)
      { exampleHeader with WithdrawalsHash := some zeroHash, ParentBeaconRoot := some zeroHash,
                           BlobGasUsed := some 0, ExcessBlobGas := some 0 }).2
      ⟨Or.inr rfl, rfl, exampleParent, by decide, by decide, by decide, by decide, by decide,
        by decide, by decide, by decide, by decide, by decide⟩⟩

end Hybrid

/-! # System distribution transaction: building and recognising -/

namespace Types

open Poapol

/-! ## Building the distribution transaction -/

theorem getDistributeForData_nil (env : TxEnv) :
    getDistributeForData env none = ([], some TxError.pubkeyIsNil) := rfl

theorem getDistributeForData_ok (env : TxEnv) (key : List Byte)
    (hpack : (env.pack key).2 = none) :
    getDistributeForData env (some key) = (env.methodID.val ++ (env.pack key).1, none) := by
  unfold getDistributeForData
  cases hpk : env.pack key with
  | mk arguments err =>
    rw [hpk] at hpack
    simp only at hpack
    subst hpack
    simp only [hpk]

theorem NewPoLTx_fails (env : TxEnv) (chainID : Option Int) (distributorAddress : Address)
    (currentBlockNumber : Int) (gasLimit : Nat) (baseFee : Option Int)
    (pubkey : Option (List Byte)) (h : pubkey = none ∨ currentBlockNumber ≤ 0) :
    (NewPoLTx env chainID distributorAddress currentBlockNumber gasLimit baseFee pubkey).1 =
        none ∧
    (NewPoLTx env chainID distributorAddress currentBlockNumber gasLimit baseFee pubkey).2 ≠
        none := by
  unfold NewPoLTx
  cases hd : getDistributeForData env pubkey with
  | mk data err =>
    cases err with
    | some e => simp
    | none =>
      rcases h with h | h
      · subst h
        rw [getDistributeForData_nil] at hd
        simp at hd
      · simp [h]

theorem NewPoLTx_ok (env : TxEnv) (chainID : Option Int) (distributorAddress : Address)
    (currentBlockNumber : Int) (gasLimit : Nat) (baseFee : Option Int) (key : List Byte)
    (hpos : 0 < currentBlockNumber) (hpack : (env.pack key).2 = none) :
    NewPoLTx env chainID distributorAddress currentBlockNumber gasLimit baseFee (some key) =
      (some (NewTx
        { ChainID := chainID
          Nonce := nonceOf currentBlockNumber
          GasLimit := gasLimit
          GasPrice := baseFee
          From := env.SystemAddress
          To := distributorAddress
          Data := env.methodID.val ++ (env.pack key).1 }), none) := by
  unfold NewPoLTx
  rw [getDistributeForData_ok env key hpack]
  simp only
  rw [if_neg (by omega)]

/-- C22: `NewPoLTx` returns an error and no transaction when the public key is absent or
`currentBlockNumber <= 0`; for a present public key and `currentBlockNumber > 0` it returns a
transaction and no error, given that the encoding of the call data does not fail; the
encoding of one `bytes` argument, `packBytes`, does not fail for any key. -/
theorem newPoLTx_error_cases (env : TxEnv) (chainID : Option Int)
    (distributorAddress : Address) (currentBlockNumber : Int) (gasLimit : Nat)
    (baseFee : Option Int) (pubkey : Option (List Byte)) :
    ((pubkey = none ∨ currentBlockNumber ≤ 0) →
      (NewPoLTx env chainID distributorAddress currentBlockNumber gasLimit baseFee pubkey).1 =
          none ∧
      (NewPoLTx env chainID distributorAddress currentBlockNumber gasLimit baseFee pubkey).2 ≠
          none) ∧
    (∀ key, pubkey = some key → 0 < currentBlockNumber → (env.pack key).2 = none →
      (NewPoLTx env chainID distributorAddress currentBlockNumber gasLimit baseFee pubkey).1 ≠
          none ∧
      (NewPoLTx env chainID distributorAddress currentBlockNumber gasLimit baseFee pubkey).2 =
          none) ∧
    (∀ key, (packBytes key).2 = none) := by
  refine ⟨NewPoLTx_fails env chainID distributorAddress currentBlockNumber gasLimit baseFee
    pubkey, ?_, fun _ => rfl⟩
  intro key hkey hpos hpack
  subst hkey
  rw [NewPoLTx_ok env chainID distributorAddress currentBlockNumber gasLimit baseFee key hpos
    hpack]
  simp

theorem newPoLTx_error_cases_witness :
    ((NewPoLTx exampleTxEnv (some 1) (addrOf 9) 100 21000 (some 7) none).1 = none ∧
      (NewPoLTx exampleTxEnv (some 1) (addrOf 9) 100 21000 (some 7) none).2 ≠ none) ∧
    ((NewPoLTx exampleTxEnv (some 1) (addrOf 9) 0 21000 (some 7) (some [1, 2, 3])).1 = none ∧
      (NewPoLTx exampleTxEnv (some 1) (addrOf 9) 0 21000 (some 7) (some [1, 2, 3])).2 ≠
        none) ∧
    ((NewPoLTx exampleTxEnv (some 1) (addrOf 9) 100 21000 (some 7) (some [1, 2, 3])).1 ≠ none ∧
      (NewPoLTx exampleTxEnv (some 1) (addrOf 9) 100 21000 (some 7) (some [1, 2, 3])).2 =
        none) :=
  ⟨(newPoLTx_error_cases exampleTxEnv (some 1) (addrOf 9) 100 21000 (some 7) none).1
      (Or.inl rfl),
    (newPoLTx_error_cases exampleTxEnv (some 1) (addrOf 9) 0 21000 (some 7)
      (some [1, 2, 3])).1 (Or.inr (by decide)),
    (newPoLTx_error_cases exampleTxEnv (some 1) (addrOf 9) 100 21000 (some 7)
      (some [1, 2, 3])).2.1 [1, 2, 3] rfl (by decide) rfl⟩

theorem nonceOf_eq (n : Int) (hpos : 0 < n) : (nonceOf n : Int) = (n - 1) % 2 ^ 64 := by
  unfold nonceOf
  have h1 : (n.natAbs : Int) = n := by omega
  have h2 : ((2 : Int) ^ 64) = 18446744073709551616 := by norm_num
  have h3 : ((2 : Nat) ^ 64) = 18446744073709551616 := by norm_num
  rw [h2, h3]
  omega

theorem nonceOf_of_le (n : Int) (hpos : 0 < n) (hle : n ≤ 2 ^ 64) :
    (nonceOf n : Int) = n - 1 := by
  rw [nonceOf_eq n hpos]
  have h2 : ((2 : Int) ^ 64) = 18446744073709551616 := by norm_num
  rw [h2] at hle ⊢
  omega

set_option maxRecDepth 100000 in
/-- C23, as stated, fails: for `currentBlockNumber = 2^64 + 1` the nonce is 0, not `2^64`,
because `Uint64()` keeps the low 64 bits. -/
theorem newPoLTx_nonce_wraps :
    (0 : Int) < 2 ^ 64 + 1 ∧
    (NewPoLTx exampleTxEnv (some 1) (addrOf 9) (2 ^ 64 + 1) 21000 (some 7)
      (some [1, 2, 3])).1.map (fun tx => tx.inner.Nonce) = some 0 ∧
    ((0 : Nat) : Int) ≠ (2 ^ 64 + 1) - 1 := by
  decide

/-- C23, amended: for a present public key whose encoding does not fail and
`currentBlockNumber > 0`, `NewPoLTx` builds a transaction whose nonce is
`(currentBlockNumber - 1) mod 2^64`, which is `currentBlockNumber - 1` when
`currentBlockNumber ≤ 2^64`; its sender is the system address, its recipient the distributor
address, and it has the given chain ID, gas limit and gas price (a `nil` chain ID or gas
price is stored as 0). -/
theorem newPoLTx_fields (env : TxEnv) (chainID : Option Int) (distributorAddress : Address)
    (currentBlockNumber : Int) (gasLimit : Nat) (baseFee : Option Int) (key : List Byte)
    (hpos : 0 < currentBlockNumber) (hpack : (env.pack key).2 = none) :
    ∃ tx,
      NewPoLTx env chainID distributorAddress currentBlockNumber gasLimit baseFee (some key) =
        (some tx, none) ∧
      (tx.inner.Nonce : Int) = (currentBlockNumber - 1) % 2 ^ 64 ∧
      (currentBlockNumber ≤ 2 ^ 64 → (tx.inner.Nonce : Int) = currentBlockNumber - 1) ∧
      tx.inner.From = env.SystemAddress ∧
      tx.inner.To = distributorAddress ∧
      tx.inner.ChainID = some (chainID.getD 0) ∧
      tx.inner.GasLimit = gasLimit ∧
      tx.inner.GasPrice = some (baseFee.getD 0) := by
  refine ⟨_, NewPoLTx_ok env chainID distributorAddress currentBlockNumber gasLimit baseFee key
    hpos hpack, nonceOf_eq _ hpos, nonceOf_of_le _ hpos, rfl, rfl, ?_, rfl, ?_⟩
  · cases chainID <;> rfl
  · cases baseFee <;> rfl

theorem newPoLTx_fields_witness :
    ∃ tx,
      NewPoLTx exampleTxEnv (some 1) (addrOf 9) 100 21000 (some 7) (some [1, 2, 3]) =
        (some tx, none) ∧
      (tx.inner.Nonce : Int) = 99 ∧
      tx.inner.From = exampleTxEnv.SystemAddress ∧
      tx.inner.To = addrOf 9 ∧
      tx.inner.ChainID = some 1 ∧
      tx.inner.GasLimit = 21000 ∧
      tx.inner.GasPrice = some 7 := by
  obtain ⟨tx, h1, _, h3, h4, h5, h6, h7, h8⟩ :=
    newPoLTx_fields exampleTxEnv (some 1) (addrOf 9) 100 21000 (some 7) [1, 2, 3]
      (by decide) rfl
  exact ⟨tx, h1, by rw [h3 (by norm_num)]; norm_num, h4, h5, h6, h7, h8⟩

/-! ## Recognising the distribution transaction -/

theorem isDistributeForCall_iff (env : TxEnv) (data : List Byte) :
    isDistributeForCall env data = true ↔
      4 ≤ data.length ∧ data.take 4 = env.methodID.val := by
  unfold isDistributeForCall
  by_cases h : data.length < 4
  · simp [h]
  · simp [h]
    omega

theorem IsPoLDistribution_iff (env : TxEnv) (sender : Address) (recipient : Option Address)
    (data : List Byte) (distributorAddress : Address) :
    IsPoLDistribution env sender recipient data distributorAddress = true ↔
      sender = env.SystemAddress ∧ recipient = some distributorAddress ∧
        4 ≤ data.length ∧ data.take 4 = env.methodID.val := by
  unfold IsPoLDistribution
  cases recipient with
  | none => simp
  | some t =>
    simp only [Bool.and_eq_true, decide_eq_true_eq, isDistributeForCall_iff, Option.some.injEq]

theorem IsPoLDistribution_of_mutation (env : TxEnv) (sender : Address)
    (recipient : Option Address) (data : List Byte) (distributorAddress : Address) (i : Nat)
    (b : Byte) (hacc : IsPoLDistribution env sender recipient data distributorAddress = true)
    (hi : i < 4) (hb : data[i]? ≠ some b) :
    IsPoLDistribution env sender recipient (data.set i b) distributorAddress = false := by
  rw [IsPoLDistribution_iff] at hacc
  obtain ⟨_, _, hlen, htake⟩ := hacc
  rw [Bool.eq_false_iff]
  intro hacc2
  rw [IsPoLDistribution_iff] at hacc2
  obtain ⟨_, _, _, htake2⟩ := hacc2
  have heq : ((data.set i b).take 4)[i]? = (data.take 4)[i]? := by rw [htake2, htake]
  rw [List.getElem?_take_of_lt hi, List.getElem?_take_of_lt hi,
    List.getElem?_set_self (by omega)] at heq
  exact hb heq.symm

/-- C24: `IsPoLDistribution` is true exactly when the sender is the system address, the
recipient is present and equal to the distributor address, and the data has at least 4 bytes
of which the first 4 are the selector; replacing one of the first 4 bytes of accepted data by
a different byte makes the result false. -/
theorem isPoLDistribution_spec (env : TxEnv) (sender : Address) (recipient : Option Address)
    (data : List Byte) (distributorAddress : Address) :
    (IsPoLDistribution env sender recipient data distributorAddress = true ↔
      sender = env.SystemAddress ∧ recipient = some distributorAddress ∧
        4 ≤ data.length ∧ data.take 4 = env.methodID.val) ∧
    (∀ (i : Nat) (b : Byte),
      IsPoLDistribution env sender recipient data distributorAddress = true → i < 4 →
      data[i]? ≠ some b →
      IsPoLDistribution env sender recipient (data.set i b) distributorAddress = false) :=
  ⟨IsPoLDistribution_iff env sender recipient data distributorAddress,
    IsPoLDistribution_of_mutation env sender recipient data distributorAddress⟩

theorem isPoLDistribution_spec_witness :
    IsPoLDistribution exampleTxEnv exampleTxEnv.SystemAddress (some (addrOf 9))
      [1, 2, 3, 4, 5] (addrOf 9) = true ∧
    IsPoLDistribution exampleTxEnv exampleTxEnv.SystemAddress (some (addrOf 9))
      ([1, 2, 3, 4, 5].set 2 7) (addrOf 9) = false :=
  ⟨by decide,
    (isPoLDistribution_spec exampleTxEnv exampleTxEnv.SystemAddress (some (addrOf 9))
      [1, 2, 3, 4, 5] (addrOf 9)).2 2 7 (by decide) (by decide) (by decide)⟩

theorem NewPoLTx_recognised (env : TxEnv) (chainID : Option Int) (distributorAddress : Address)
    (currentBlockNumber : Int) (gasLimit : Nat) (baseFee : Option Int)
    (pubkey : Option (List Byte)) (tx : Transaction)
    (hbuilt : NewPoLTx env chainID distributorAddress currentBlockNumber gasLimit baseFee
      pubkey = (some tx, none)) :
    tx.inner.From = env.SystemAddress ∧ tx.inner.to = some distributorAddress ∧
      4 ≤ tx.inner.Data.length ∧ tx.inner.Data.take 4 = env.methodID.val := by
  cases pubkey with
  | none =>
    have := (NewPoLTx_fails env chainID distributorAddress currentBlockNumber gasLimit baseFee
      none (Or.inl rfl)).1
    rw [hbuilt] at this
    simp at this
  | some key =>
    by_cases hpos : 0 < currentBlockNumber
    · cases hpk : (env.pack key).2 with
      | none =>
        rw [NewPoLTx_ok env chainID distributorAddress currentBlockNumber gasLimit baseFee key
          hpos hpk] at hbuilt
        simp only [Prod.mk.injEq, Option.some.injEq, and_true] at hbuilt
        subst hbuilt
        refine ⟨rfl, rfl, ?_, ?_⟩
        · show 4 ≤ (env.methodID.val ++ (env.pack key).1).length
          rw [List.length_append, env.methodID.property]
          omega
        · show (env.methodID.val ++ (env.pack key).1).take 4 = env.methodID.val
          exact List.take_left' env.methodID.property
      | some err =>
        have hfail : (NewPoLTx env chainID distributorAddress currentBlockNumber gasLimit
            baseFee (some key)).1 = none := by
          unfold NewPoLTx getDistributeForData
          cases hp2 : env.pack key with
          | mk arguments e2 =>
            rw [hp2] at hpk
            simp only at hpk
            subst hpk
            simp only [hp2]
        rw [hbuilt] at hfail
        simp at hfail
    · have := (NewPoLTx_fails env chainID distributorAddress currentBlockNumber gasLimit baseFee
        (some key) (Or.inr (by omega))).1
      rw [hbuilt] at this
      simp at this

/-- C26: a transaction that `NewPoLTx` builds for the distributor address `D` is recognised by
`IsPoLDistribution` with `D`, and is not recognised with any other distributor address. -/
theorem built_tx_is_recognised (env : TxEnv) (chainID : Option Int)
    (distributorAddress : Address) (currentBlockNumber : Int) (gasLimit : Nat)
    (baseFee : Option Int) (pubkey : Option (List Byte)) (tx : Transaction)
    (hbuilt : NewPoLTx env chainID distributorAddress currentBlockNumber gasLimit baseFee
      pubkey = (some tx, none)) :
    IsPoLDistribution env tx.inner.From tx.inner.to tx.inner.Data distributorAddress = true ∧
    ∀ other, other ≠ distributorAddress →
      IsPoLDistribution env tx.inner.From tx.inner.to tx.inner.Data other = false := by
  obtain ⟨h1, h2, h3, h4⟩ := NewPoLTx_recognised env chainID distributorAddress
    currentBlockNumber gasLimit baseFee pubkey tx hbuilt
  refine ⟨(IsPoLDistribution_iff _ _ _ _ _).mpr ⟨h1, h2, h3, h4⟩, ?_⟩
  intro other hne
  rw [Bool.eq_false_iff]
  intro hacc
  rw [IsPoLDistribution_iff, h2] at hacc
  exact hne (Option.some.inj hacc.2.1).symm

theorem built_tx_is_recognised_witness :
    NewPoLTx exampleTxEnv (some 1) (addrOf 9) 100 21000 (some 7) (some [1, 2, 3]) =
      (some exampleTx, none) ∧
    IsPoLDistribution exampleTxEnv exampleTx.inner.From exampleTx.inner.to exampleTx.inner.Data
      (addrOf 9) = true ∧
    IsPoLDistribution exampleTxEnv exampleTx.inner.From exampleTx.inner.to exampleTx.inner.Data
      (addrOf 8) = false :=
  ⟨by decide,
    (built_tx_is_recognised exampleTxEnv (some 1) (addrOf 9) 100 21000 (some 7)
      (some [1, 2, 3]) exampleTx (by decide)).1,
    (built_tx_is_recognised exampleTxEnv (some 1) (addrOf 9) 100 21000 (some 7)
      (some [1, 2, 3]) exampleTx (by decide)).2 (addrOf 8) (by decide)⟩

end Types
